import Mathlib

/-!
# Verification of the vault-nexus-eternal core

Shallow embedding of the two core components of the repository:

* `Store40D` (`src/core/store40d.py`): a fixed-schema 40-dimensional indexed
  store with content-hash identity, posting lists, range queries and a
  CARE redistribution pool.
* `ElephantMemory` (`src/core/elephant_memory.py`): the six-phase, 46-page
  memory lifecycle engine (`ingest`, the five advance steps, `breath_cycle`,
  `recall`, generation snapshots).

Modelling conventions:

* Record/memory content is a string-keyed association list of JSON scalar
  values (`Val`): strings, ints, floats, booleans and `None`.  Python floats
  are modelled as exact rationals (`Rat`); every strength/pool value the code
  manipulates is exactly representable, and the one concrete pool computation
  claimed by the spec (`525.0`) is exact in IEEE doubles as well.
* `json.dumps(content, sort_keys=True)` followed by SHA-256 is modelled by
  the key-sorted association list itself (`computeGenome`): a deterministic,
  collision-free stand-in for the digest.
* Wall-clock inputs (`datetime.utcnow()`, `time.time()`) are passed in as
  explicit `Nat` parameters; the float `avg_query_time` instrumentation is
  wall-clock-only and is not modelled.
* Python exceptions (`TypeError` during CARE multiplication or range
  comparison, `IndexError` on list indexing) are modelled with
  `Except Unit` / `Option`; a raising operation returns the state as mutated
  up to the raise point, exactly as the Python object survives the raise.
* `genome_index` in the Python class always aliases the memory objects held
  in `pages`; it is modelled as derived lookup over the pages rather than a
  second container, and `tag_index` (a `defaultdict(list)`) as an
  insertion-ordered association list.
-/

/-- JSON scalar values appearing in record/memory content.  Python floats are
modelled as exact rationals.  (Nested arrays/objects are outside the modelled
universe; no claim depends on them.) -/
inductive Val where
  | s (v : String)
  | i (v : Int)
  | q (v : Rat)
  | b (v : Bool)
  | null
deriving Repr, DecidableEq

/-- Record / memory content: a Python dict modelled as a string-keyed
association list (keys unique in any state produced by Python). -/
abbrev Content := List (String × Val)

/-- `data.get(k, None)` on a dict. -/
def contentGet (c : Content) (k : String) : Option Val :=
  (c.find? (fun p => p.1 = k)).map (·.2)

/-- Stable insertion sort: `a` is placed before the first `b` with `r a b`.
With a total preorder `r` this reproduces the output of Python's stable
`sort` (ties keep original order). -/
def sInsert (r : α → α → Bool) (a : α) : List α → List α
  | [] => [a]
  | b :: l => if r a b then a :: b :: l else b :: sInsert r a l

/-- Stable sort by the relation `r` (see `sInsert`). -/
def sSort (r : α → α → Bool) : List α → List α
  | [] => []
  | a :: l => sInsert r a (sSort r l)

/-- Canonical form of content: entries sorted by key, the model of
`json.dumps(content, sort_keys=True)`. -/
def canonicalize (c : Content) : List (String × Val) :=
  sSort (fun a b => decide (a.1 ≤ b.1)) c

/-- The SHA-256 genome of `_compute_genome`, modelled injectively by the
canonical serialization itself. -/
abbrev Genome := List (String × Val)

/-- `_compute_genome(content)`: canonical key-sorted serialization, hashed.
Identical in `Store40D` and `ElephantMemory`. -/
def computeGenome (c : Content) : Genome := canonicalize c

/-! ## ElephantMemory: data model -/

/-- The six lifecycle phases, in their fixed total order. -/
inductive Phase where
  | INTAKE
  | TRUNK_SORT
  | HERD_CONSENSUS
  | MEMORY_ENCODE
  | GENERATIONAL_PASS
  | ECHO_AMPLIFY
deriving Repr, DecidableEq

/-- Position of a phase in the fixed order. -/
def Phase.idx : Phase → Nat
  | .INTAKE => 0
  | .TRUNK_SORT => 1
  | .HERD_CONSENSUS => 2
  | .MEMORY_ENCODE => 3
  | .GENERATIONAL_PASS => 4
  | .ECHO_AMPLIFY => 5

/-- A single memory unit (the `Memory` dataclass). -/
structure Memory where
  content : Content
  timestamp : Nat
  genome : Genome
  strength : Rat := 1
  phase : Phase := .INTAKE
  page : Nat := 1
  generation : Nat := 0
  herd_validations : Nat := 0
  echo_count : Nat := 0
  tags : List String := []
  associations : List Genome := []
deriving Repr, DecidableEq

/-- A generational wisdom snapshot (`_create_generation_snapshot`). -/
structure GenSnapshot where
  generation : Nat
  timestamp : Nat
  total_memories : Nat
  avg_strength : Rat
  top_tags : List (String × Nat)
  memory_count_by_phase : List (Phase × Nat)
deriving Repr, DecidableEq

/-- Page buckets: the Python `self.pages` dict with keys 1..46. -/
abbrev PagesT := Nat → List Memory

/-- The `ElephantMemory` engine state.  The `stats` dict is flattened into
fields; `genome_index` is derived from `pages` (it aliases the same objects);
`tag_index` is an insertion-ordered association list like `defaultdict`. -/
structure EM where
  pages : PagesT
  tag_index : List (String × List Genome)
  generations : List GenSnapshot
  current_generation : Nat
  total_memories : Nat
  total_echoes : Nat
  total_generations : Nat
  stat_herd_validations : Nat
  phase_transitions : Nat
  loop_count : Nat
  last_breath : Nat

/-- A fresh engine (`__init__`, `store40d=None`, `decay_rate=0.0`). -/
def EM.init : EM where
  pages := fun _ => []
  tag_index := []
  generations := []
  current_generation := 0
  total_memories := 0
  total_echoes := 0
  total_generations := 0
  stat_herd_validations := 0
  phase_transitions := 0
  loop_count := 0
  last_breath := 0

/-- The 46 page numbers, in the iteration order of `self.pages`. -/
def pageList : List Nat :=
  [1, 2, 3, 4, 5, 6, 7, 8, 9, 10, 11, 12, 13, 14, 15, 16, 17, 18, 19, 20,
   21, 22, 23, 24, 25, 26, 27, 28, 29, 30, 31, 32, 33, 34, 35, 36, 37, 38,
   39, 40, 41, 42, 43, 44, 45, 46]

/-- `PHASES["INTAKE"]`: pages 1-8. -/
def intakePages : List Nat := [1, 2, 3, 4, 5, 6, 7, 8]

/-- `PHASES["TRUNK_SORT"]`: pages 9-16. -/
def trunkPages : List Nat := [9, 10, 11, 12, 13, 14, 15, 16]

/-- `PHASES["HERD_CONSENSUS"]`: pages 17-24. -/
def consensusPages : List Nat := [17, 18, 19, 20, 21, 22, 23, 24]

/-- `PHASES["MEMORY_ENCODE"]`: pages 25-32. -/
def encodePages : List Nat := [25, 26, 27, 28, 29, 30, 31, 32]

/-- `PHASES["GENERATIONAL_PASS"]`: pages 33-40. -/
def genPages : List Nat := [33, 34, 35, 36, 37, 38, 39, 40]

/-- All memories, in the scan order used by `recall`, `_calculate_avg_strength`
and `_count_by_phase`: pages 1..46, each bucket in insertion order. -/
def EM.allMems (s : EM) : List Memory :=
  pageList.flatMap s.pages

/-- First memory with the given genome, in page-scan order (the model of a
`genome_index` lookup; unique in reachable states). -/
def EM.findMem (s : EM) (g : Genome) : Option Memory :=
  s.allMems.find? (fun m => m.genome = g)

/-! ## ElephantMemory: ingest -/

/-- `tag_index[tag].append(genome)` on a `defaultdict(list)`. -/
def tagIndexAdd (t : String) (g : Genome) :
    List (String × List Genome) → List (String × List Genome)
  | [] => [(t, [g])]
  | (t', gs) :: rest =>
      if t' = t then (t', gs ++ [g]) :: rest else (t', gs) :: tagIndexAdd t g rest

/-- `self.tag_index.get(tag, [])`. -/
def tagIndexGet (idx : List (String × List Genome)) (t : String) : List Genome :=
  ((idx.find? (fun p => p.1 = t)).map (·.2)).getD []

/-- `self.genome_index[genome].echo_count += 1`: the in-place echo bump of
the one memory with the matching genome (applied pointwise; it touches
exactly the aliased memory since genomes are unique across buckets). -/
def bumpEcho (g : Genome) (m : Memory) : Memory :=
  if m.genome = g then { m with echo_count := m.echo_count + 1 } else m

/-- `ingest(content, tags)`: dedup by genome (echo bump) or create a new
memory in the first INTAKE page.  `now` models `datetime.utcnow()`.
The optional `Store40D` forwarding does not touch engine state and is
modelled on the store side. -/
def EM.ingest (s : EM) (now : Nat) (content : Content) (tags : List String) :
    EM × Genome :=
  let g := computeGenome content
  if s.allMems.any (fun m => m.genome = g) then
    ({ s with
        pages := fun q => (s.pages q).map (bumpEcho g)
        total_echoes := s.total_echoes + 1 }, g)
  else
    let m : Memory :=
      { content := content, timestamp := now, genome := g, strength := 1,
        phase := .INTAKE, page := 1, generation := s.current_generation,
        herd_validations := 0, echo_count := 0, tags := tags, associations := [] }
    ({ s with
        pages := Function.update s.pages 1 (s.pages 1 ++ [m])
        tag_index := tags.foldl (fun idx t => tagIndexAdd t g idx) s.tag_index
        total_memories := s.total_memories + 1 }, g)

/-! ## ElephantMemory: the five advance steps

Each step scans the source-phase pages in order, applies a per-memory action
(which may mutate the memory in place), removes the promoted memories from
their page and appends them to the first page of the next phase.  `stepPages`
is the common loop shape of `trunk_sort` / `herd_consensus` / `memory_encode`
/ `generational_pass` / `echo_amplify`. -/

/-- One bucket-moving pass: for each source page in order, apply `act` to
every memory; memories flagged `true` are removed from the page and appended
(in encounter order) to page `tgt`.  Returns the new buckets and the number
of promoted memories. -/
def stepPages (act : Memory → Memory × Bool) (tgt : Nat) :
    List Nat → PagesT → PagesT × Nat
  | [], pages => (pages, 0)
  | p :: rest, pages =>
      let processed := (pages p).map act
      let kept := (processed.filter (fun x => !x.2)).map Prod.fst
      let moved := (processed.filter (fun x => x.2)).map Prod.fst
      let pages1 :=
        Function.update (Function.update pages p kept) tgt (pages tgt ++ moved)
      let r := stepPages act tgt rest pages1
      (r.1, moved.length + r.2)

/-- `trunk_sort` per-memory action: promote INTAKE memories with
`strength >= 0.5 or echo_count > 0` to TRUNK_SORT, page 9. -/
def trunkAct (m : Memory) : Memory × Bool :=
  if m.phase = .INTAKE ∧ ((1 : Rat)/2 ≤ m.strength ∨ 0 < m.echo_count) then
    ({ m with phase := .TRUNK_SORT, page := 9 }, true)
  else (m, false)

/-- `trunk_sort()`. -/
def EM.trunk_sort (s : EM) : EM × Nat :=
  let r := stepPages trunkAct 9 intakePages s.pages
  ({ s with
      pages := r.1
      phase_transitions :=
        if 0 < r.2 then s.phase_transitions + r.2 else s.phase_transitions },
   r.2)

/-- `herd_consensus` per-memory action: every TRUNK_SORT memory gains a herd
validation; at two validations it is promoted to HERD_CONSENSUS, page 17,
with `strength = min(1.0, strength + 0.1)`. -/
def herdAct (m : Memory) : Memory × Bool :=
  if m.phase = .TRUNK_SORT then
    let v := m.herd_validations + 1
    if 2 ≤ v then
      ({ m with herd_validations := v, phase := .HERD_CONSENSUS, page := 17,
                strength := min 1 (m.strength + 1/10) }, true)
    else ({ m with herd_validations := v }, false)
  else (m, false)

/-- `herd_consensus()`. -/
def EM.herd_consensus (s : EM) : EM × Nat :=
  let r := stepPages herdAct 17 trunkPages s.pages
  ({ s with
      pages := r.1
      stat_herd_validations := s.stat_herd_validations + r.2 }, r.2)

/-- `_find_associations` inner collection: genomes from one tag's posting
list, skipping self and duplicates, stopping at `maxA` (Python checks the
length after each append; checking before the next candidate is the same). -/
def collectAssoc (self : Genome) (maxA : Nat) (acc : List Genome) :
    List Genome → List Genome
  | [] => acc
  | g :: rest =>
      if maxA ≤ acc.length then acc
      else if g ≠ self ∧ g ∉ acc then collectAssoc self maxA (acc ++ [g]) rest
      else collectAssoc self maxA acc rest

/-- `_find_associations(memory, max_associations=5)`: scan the memory's tags
in order, collecting up to five other genomes that share a tag. -/
def findAssociations (tagIdx : List (String × List Genome)) (m : Memory) :
    List Genome :=
  m.tags.foldl (fun acc t => collectAssoc m.genome 5 acc (tagIndexGet tagIdx t)) []

/-- `memory_encode` per-memory action (closed over the engine's `tag_index`,
which the step itself never mutates): promote every HERD_CONSENSUS memory to
MEMORY_ENCODE, page 25, with its associations computed and strength reset
to 1.0. -/
def encodeAct (tagIdx : List (String × List Genome)) (m : Memory) :
    Memory × Bool :=
  if m.phase = .HERD_CONSENSUS then
    ({ m with associations := findAssociations tagIdx m,
              phase := .MEMORY_ENCODE, page := 25, strength := 1 }, true)
  else (m, false)

/-- `memory_encode()`. -/
def EM.memory_encode (s : EM) : EM × Nat :=
  let r := stepPages (encodeAct s.tag_index) 25 consensusPages s.pages
  ({ s with pages := r.1 }, r.2)

/-- `_calculate_avg_strength()`. -/
def EM.calcAvgStrength (s : EM) : Rat :=
  if s.total_memories = 0 then 0
  else
    let ms := s.allMems
    if 0 < ms.length then (ms.map (·.strength)).sum / ms.length else 0

/-- `_get_top_tags(limit)`: tag counts sorted by count descending (stable),
first `limit`. -/
def EM.getTopTags (s : EM) (limit : Nat) : List (String × Nat) :=
  (sSort (fun a b => decide (b.2 ≤ a.2))
    (s.tag_index.map (fun p => (p.1, p.2.length)))).take limit

/-- `defaultdict(int)` bump for `_count_by_phase`. -/
def bumpPhaseCount (p : Phase) : List (Phase × Nat) → List (Phase × Nat)
  | [] => [(p, 1)]
  | (p', n) :: rest =>
      if p' = p then (p', n + 1) :: rest else (p', n) :: bumpPhaseCount p rest

/-- `_count_by_phase()`: counts keyed in first-encounter order. -/
def EM.countByPhase (s : EM) : List (Phase × Nat) :=
  s.allMems.foldl (fun acc m => bumpPhaseCount m.phase acc) []

/-- `_create_generation_snapshot()`: append the snapshot, advance the
generation counter, bump the stats counter. -/
def EM.createGenerationSnapshot (s : EM) (now : Nat) : EM :=
  let snap : GenSnapshot :=
    { generation := s.current_generation
      timestamp := now
      total_memories := s.total_memories
      avg_strength := s.calcAvgStrength
      top_tags := s.getTopTags 10
      memory_count_by_phase := s.countByPhase }
  { s with
      generations := s.generations ++ [snap]
      current_generation := s.current_generation + 1
      total_generations := s.total_generations + 1 }

/-- `generational_pass` per-memory action: unconditionally promote every
MEMORY_ENCODE memory to GENERATIONAL_PASS, page 33. -/
def genAct (m : Memory) : Memory × Bool :=
  if m.phase = .MEMORY_ENCODE then
    ({ m with phase := .GENERATIONAL_PASS, page := 33 }, true)
  else (m, false)

/-- `generational_pass()`: move, then snapshot when more than 10 memories
were promoted in this call. -/
def EM.generational_pass (s : EM) (now : Nat) : EM × Nat :=
  let r := stepPages genAct 33 encodePages s.pages
  let s1 := { s with pages := r.1 }
  (if 10 < r.2 then s1.createGenerationSnapshot now else s1, r.2)

/-- `echo_amplify` per-memory action: unconditionally promote every
GENERATIONAL_PASS memory to ECHO_AMPLIFY, page 41, bumping its echo count. -/
def echoAct (m : Memory) : Memory × Bool :=
  if m.phase = .GENERATIONAL_PASS then
    ({ m with echo_count := m.echo_count + 1,
              phase := .ECHO_AMPLIFY, page := 41 }, true)
  else (m, false)

/-- `echo_amplify()`. -/
def EM.echo_amplify (s : EM) : EM × Nat :=
  let r := stepPages echoAct 41 genPages s.pages
  ({ s with pages := r.1, total_echoes := s.total_echoes + r.2 }, r.2)

/-- Per-stage promoted counts returned by `breath_cycle`. -/
structure CycleStats where
  trunk_sorted : Nat
  herd_validated : Nat
  encoded : Nat
  generational_passed : Nat
  echo_amplified : Nat
deriving Repr, DecidableEq

/-- `breath_cycle()` (the spec's `runCycle()`): the five advance steps in
fixed order, then the loop bookkeeping.  `now` models both the snapshot
timestamp and `time.time()`. -/
def EM.breath_cycle (s : EM) (now : Nat) : EM × CycleStats :=
  let r1 := s.trunk_sort
  let r2 := r1.1.herd_consensus
  let r3 := r2.1.memory_encode
  let r4 := r3.1.generational_pass now
  let r5 := r4.1.echo_amplify
  ({ r5.1 with loop_count := r5.1.loop_count + 1, last_breath := now },
   { trunk_sorted := r1.2, herd_validated := r2.2, encoded := r3.2,
     generational_passed := r4.2, echo_amplified := r5.2 })

/-! ## ElephantMemory: recall -/

/-- The tag/phase filter of `recall` (Python truthiness: an empty tag list
disables the tag filter). -/
def recallCond (tags : Option (List String)) (phase : Option Phase)
    (m : Memory) : Bool :=
  (match tags with
   | none => true
   | some ts => ts.isEmpty || ts.any (fun t => t ∈ m.tags)) &&
  (match phase with
   | none => true
   | some p => m.phase = p)

/-- The `recall` bucket scan with its early exit: append matches, breaking as
soon as `limit` results have been collected (the length check runs after each
append, as in the Python loop). -/
def scanCollect (cond : Memory → Bool) (limit : Nat) (acc : List Memory) :
    List Memory → List Memory
  | [] => acc
  | m :: rest =>
      if cond m then
        let acc' := acc ++ [m]
        if limit ≤ acc'.length then acc' else scanCollect cond limit acc' rest
      else scanCollect cond limit acc rest

/-- Python's `results.sort(key=lambda m: (m.strength, m.echo_count),
reverse=True)`: stable descending sort by the (strength, echo) pair. -/
def rankSort (l : List Memory) : List Memory :=
  sSort (fun a b =>
    decide (b.strength < a.strength ∨
      (a.strength = b.strength ∧ b.echo_count ≤ a.echo_count))) l

/-- `recall(tags=…, phase=…, limit=…)` (the `genome=None` path): limited
bucket scan, then rank, then truncate. -/
def EM.recall (s : EM) (tags : Option (List String)) (phase : Option Phase)
    (limit : Nat) : List Memory :=
  (rankSort (scanCollect (recallCond tags phase) limit [] s.allMems)).take limit

/-! ## Reachable engine states -/

/-- External operations driving the lifecycle engine. -/
inductive EOp where
  | ing (now : Nat) (content : Content) (tags : List String)
  | cyc (now : Nat)

/-- Apply one external operation. -/
def EOp.apply (op : EOp) (s : EM) : EM :=
  match op with
  | .ing now c tags => (s.ingest now c tags).1
  | .cyc now => (s.breath_cycle now).1

/-- Engine states reachable from a fresh engine through `ingest` and
`breath_cycle` calls. -/
inductive EM.Reachable : EM → Prop where
  | init : EM.Reachable EM.init
  | step {s : EM} (op : EOp) : EM.Reachable s → EM.Reachable (op.apply s)

/-! ## Store40D: data model -/

namespace Store40D

/-- The fixed 40-name dimension schema, in order. -/
def DIMENSION_NAMES : List String :=
  ["sector", "brand", "product_type", "market", "region",
   "customer_segment", "revenue_tier", "growth_stage", "partnership",
   "compliance_zone",
   "tech_stack", "version", "deployment_env", "latency_tier", "storage_type",
   "api_protocol", "security_level", "integration_type", "compute_tier",
   "network_zone",
   "year", "quarter", "month", "week", "day",
   "hour", "breath_cycle", "epoch", "milestone", "phase",
   "quality_score", "completeness", "verified", "confidence", "relevance",
   "freshness", "authority", "coverage", "accessibility", "consistency"]

/-- Python `str(value)` as used in the posting-list key `f"D{i}:{value}"`.
Faithful for strings, ints, booleans and `None`; floats use an abstract
injective rendering (Python's shortest-repr float formatting is not
modelled — no claim depends on cross-type string collisions in index
keys). -/
def pyStr : Val → String
  | .s v => v
  | .i n => toString n
  | .b true => "True"
  | .b false => "False"
  | .null => "None"
  | .q v => "float<" ++ toString v.num ++ "/" ++ toString v.den ++ ">"

/-- A posting-list key: the pair behind the string `f"D{dimIdx}:{str value}"`
(the `D<digits>:` prefix makes the string determine the pair). -/
abbrev IdxKey := Nat × String

/-- The posting-list index, a `defaultdict(list)` in insertion order. -/
abbrev IdxT := List (IdxKey × List Nat)

/-- `self.index.get(key, [])`. -/
def idxGet (idx : IdxT) (k : IdxKey) : List Nat :=
  ((idx.find? (fun p => p.1 = k)).map (·.2)).getD []

/-- `self.index[key].append(n)`. -/
def idxBump (k : IdxKey) (n : Nat) : IdxT → IdxT
  | [] => [(k, [n])]
  | (k', l) :: rest =>
      if k' = k then (k', l ++ [n]) :: rest else (k', l) :: idxBump k n rest

/-- A stored data point. -/
structure Point where
  genome : Genome
  data : Content
  coordinates : List (Option Val)
  timestamp : Nat
  breath_cycle : Nat
deriving Repr, DecidableEq

/-- Default used only to give `List.getD` a value; never reachable through
valid positions. -/
def dummyPoint : Point :=
  { genome := [], data := [], coordinates := [], timestamp := 0,
    breath_cycle := 0 }

/-- The 40D hypercube state (stats flattened into fields; the wall-clock
`avg_query_time` instrumentation is not modelled). -/
structure Store where
  data : List Point
  index : IdxT
  care_mandate : Rat
  care_pool : Rat
  total_stored : Nat
  total_queries : Nat
  care_redistributed : Rat

/-- `Store40D(care_mandate=…)`. -/
def Store.init (mandate : Rat) : Store where
  data := []
  index := []
  care_mandate := mandate
  care_pool := 0
  total_stored := 0
  total_queries := 0
  care_redistributed := 0

/-- One coordinate slot: `data.get(dim_name, None)`.  A present `None` value
and an absent key are indistinguishable in Python, so `Val.null` collapses to
`none` here. -/
def coordOf (c : Content) (nm : String) : Option Val :=
  match contentGet c nm with
  | some .null => none
  | o => o

/-- `_extract_coordinates(data)`: one slot per schema dimension, `None` when
absent. -/
def extractCoordinates (c : Content) : List (Option Val) :=
  DIMENSION_NAMES.map (fun nm => coordOf c nm)

/-- The `enumerate(coords)` indexing loop of `store`: append position `n` to
the posting list of every non-null coordinate. -/
def indexCoords (coords : List (Option Val)) (i : Nat) (n : Nat)
    (idx : IdxT) : IdxT :=
  match coords with
  | [] => idx
  | some v :: rest => indexCoords rest (i + 1) n (idxBump (i, pyStr v) n idx)
  | none :: rest => indexCoords rest (i + 1) n idx

/-- The numeric view Python's `*` accepts: ints, floats and booleans
(`True` is 1).  `None`, strings (and anything non-numeric) raise
`TypeError` when multiplied by the float mandate. -/
def valNum : Val → Option Rat
  | .i n => some (n : Rat)
  | .q v => some v
  | .b true => some 1
  | .b false => some 0
  | _ => none

/-- `store(data)`: hash, extract coordinates, append the point, update the
posting lists, then apply the CARE mandate.  A non-numeric `"value"` field
raises `TypeError` *after* the point has been appended and indexed: the
mutated state is returned with `none` instead of the genome.  `ts`/`bc`
model `datetime.utcnow()` and `int(time.time() % 9)`. -/
def Store.store (s : Store) (c : Content) (ts bc : Nat) :
    Store × Option Genome :=
  let genome := computeGenome c
  let coords := extractCoordinates c
  let point : Point :=
    { genome := genome, data := c, coordinates := coords, timestamp := ts,
      breath_cycle := bc }
  let data' := s.data ++ [point]
  let index' := indexCoords coords 0 s.data.length s.index
  match contentGet c "value" with
  | some v =>
      match valNum v with
      | some x =>
          let care := x * s.care_mandate
          ({ s with
              data := data'
              index := index'
              care_pool := s.care_pool + care
              care_redistributed := s.care_redistributed + care
              total_stored := s.total_stored + 1 }, some genome)
      | none => ({ s with data := data', index := index' }, none)
  | none =>
      ({ s with
          data := data'
          index := index'
          total_stored := s.total_stored + 1 }, some genome)

/-! ## Store40D: query -/

/-- Query operators (`operators` dict values; any unrecognized string falls
through every branch of the scan and matches nothing). -/
inductive QOp where
  | eq
  | inOp
  | gt
  | lt
  | ge
  | le
  | unknown
deriving Repr, DecidableEq

/-- `operators.get(dim_name, "==")`. -/
def opOf (operators : List (String × QOp)) (k : String) : QOp :=
  ((operators.find? (fun p => p.1 = k)).map (·.2)).getD .eq

/-- Python's ordering comparison between two values: numerics compare
numerically (booleans as 0/1), strings lexicographically; any other pairing
raises `TypeError` (`none`). -/
def valCmp (a b : Val) : Option Ordering :=
  match valNum a, valNum b with
  | some x, some y =>
      some (if x < y then .lt else if x = y then .eq else .gt)
  | _, _ =>
      match a, b with
      | .s x, .s y => some (if x < y then .lt else if x = y then .eq else .gt)
      | _, _ => none

/-- `coord > value`. -/
def valGt (a b : Val) : Option Bool := (valCmp a b).map (fun o => o = .gt)

/-- `coord < value`. -/
def valLt (a b : Val) : Option Bool := (valCmp a b).map (fun o => o = .lt)

/-- `coord >= value`. -/
def valGe (a b : Val) : Option Bool := (valCmp a b).map (fun o => o ≠ .lt)

/-- `coord <= value`. -/
def valLe (a b : Val) : Option Bool := (valCmp a b).map (fun o => o ≠ .gt)

/-- The range-operator linear scan over all data points: `None` coordinates
are skipped; a comparison `TypeError` (or an out-of-range coordinate access)
aborts the query. -/
def rangeScan (keep : Val → Option Bool) (dimIdx : Nat) :
    List Point → Nat → Except Unit (List Nat)
  | [], _ => .ok []
  | p :: rest, i =>
      match p.coordinates.get? dimIdx with
      | none => .error ()
      | some none => rangeScan keep dimIdx rest (i + 1)
      | some (some v) =>
          match keep v with
          | none => .error ()
          | some true => (rangeScan keep dimIdx rest (i + 1)).map (i :: ·)
          | some false => rangeScan keep dimIdx rest (i + 1)

/-- Set union on candidate-index lists (Python `set.update`; order is an
iteration-order artifact and no claim depends on it). -/
def listUnion (a b : List Nat) : List Nat := a ++ b.filter (fun n => n ∉ a)

/-- The values iterated by the `in` operator: a string iterates its
characters (Python semantics); scalars are not iterable (`TypeError`).
List-valued filters sit outside the modelled value universe. -/
def iterVals : Val → Except Unit (List Val)
  | .s str => .ok (str.toList.map (fun ch => Val.s ch.toString))
  | _ => .error ()

/-- Candidate indices for one filter. -/
def filterIndices (s : Store) (dimIdx : Nat) (v : Val) :
    QOp → Except Unit (List Nat)
  | .eq => .ok (idxGet s.index (dimIdx, pyStr v))
  | .inOp =>
      (iterVals v).map (fun vs =>
        vs.foldl (fun acc w => listUnion acc (idxGet s.index (dimIdx, pyStr w))) [])
  | .gt => rangeScan (fun c => valGt c v) dimIdx s.data 0
  | .lt => rangeScan (fun c => valLt c v) dimIdx s.data 0
  | .ge => rangeScan (fun c => valGe c v) dimIdx s.data 0
  | .le => rangeScan (fun c => valLe c v) dimIdx s.data 0
  | .unknown => .ok []

/-- The filter loop of `query`: unknown dimension names are skipped; each
filter's candidate set intersects the accumulator (`None` before the first
indexed filter). -/
def applyFilters (s : Store) (operators : List (String × QOp)) :
    List (String × Val) → Option (List Nat) →
    Except Unit (Option (List Nat))
  | [], cand => .ok cand
  | (k, v) :: rest, cand =>
      if k ∈ DIMENSION_NAMES then
        match filterIndices s (DIMENSION_NAMES.indexOf k) v (opOf operators k) with
        | .error e => .error e
        | .ok inds =>
            match cand with
            | none => applyFilters s operators rest (some inds)
            | some c0 =>
                applyFilters s operators rest (some (c0.filter (fun n => n ∈ inds)))
      else applyFilters s operators rest cand

/-- `self.data[idx]` for each candidate (an out-of-range position raises). -/
def getPoints (data : List Point) : List Nat → Except Unit (List Point)
  | [] => .ok []
  | i :: rest =>
      match data.get? i with
      | none => .error ()
      | some p => (getPoints data rest).map (p :: ·)

/-- `query(filters, operators)`: on success the query counter advances and
the matching points are returned; a raised `TypeError`/`IndexError` leaves
the store untouched (`if candidate_indices:` treats both `None` and the
empty set as no results). -/
def Store.query (s : Store) (filters : List (String × Val))
    (operators : List (String × QOp)) : Store × Except Unit (List Point) :=
  match applyFilters s operators filters none with
  | .error e => (s, .error e)
  | .ok cand =>
      match getPoints s.data (cand.getD []) with
      | .error e => (s, .error e)
      | .ok results =>
          ({ s with total_queries := s.total_queries + 1 }, .ok results)

/-- Positions recorded in posting lists are valid positions in the record
list (true of every store built through `store`). -/
def Store.WF (s : Store) : Prop :=
  ∀ k n, n ∈ idxGet s.index k → n < s.data.length

end Store40D


/-! ## Lifecycle bookkeeping lemmas -/

/-- `echo_amplify` leaves the generation archive untouched. -/
theorem echo_generations (s : EM) : (s.echo_amplify).1.generations = s.generations := rfl

/-- `echo_amplify` leaves the generation counter untouched. -/
theorem echo_current (s : EM) :
    (s.echo_amplify).1.current_generation = s.current_generation := rfl

/-- The first three advance steps leave the generation archive untouched. -/
theorem pregen_generations (s : EM) :
    (((s.trunk_sort).1.herd_consensus).1.memory_encode).1.generations
      = s.generations := rfl

/-- The first three advance steps leave the generation counter untouched. -/
theorem pregen_current (s : EM) :
    (((s.trunk_sort).1.herd_consensus).1.memory_encode).1.current_generation
      = s.current_generation := rfl

/-- `generational_pass` appends a snapshot exactly when more than 10
memories were promoted in the call. -/
theorem generational_pass_generations (s : EM) (now : Nat) :
    (s.generational_pass now).1.generations.length
      = s.generations.length
        + (if 10 < (s.generational_pass now).2 then 1 else 0) := by
  unfold EM.generational_pass
  dsimp only
  split <;> simp [EM.createGenerationSnapshot]

/-- `generational_pass` advances the generation counter exactly when a
snapshot is created. -/
theorem generational_pass_current (s : EM) (now : Nat) :
    (s.generational_pass now).1.current_generation
      = s.current_generation
        + (if 10 < (s.generational_pass now).2 then 1 else 0) := by
  unfold EM.generational_pass
  dsimp only
  split <;> simp [EM.createGenerationSnapshot]

/-! ## C3: generation snapshots -/

/-- C3: for every `breath_cycle()` call, a `GenerationSnapshot` is appended
to the archive if and only if strictly more than 10 memories are promoted
out of MEMORY_ENCODE (into GENERATIONAL_PASS) during that call, and the
generation counter is incremented exactly once per snapshot created. -/
theorem c3_snapshot_iff_gt10 (s : EM) (now : Nat) :
    (s.breath_cycle now).1.generations.length
      = s.generations.length
        + (if 10 < (s.breath_cycle now).2.generational_passed then 1 else 0) ∧
    (s.breath_cycle now).1.current_generation
      = s.current_generation
        + (if 10 < (s.breath_cycle now).2.generational_passed then 1 else 0) := by
  simp only [EM.breath_cycle]
  rw [echo_generations, echo_current, generational_pass_generations,
    generational_pass_current, pregen_generations, pregen_current]
  exact ⟨rfl, rfl⟩

/-! ## C9: empty filter set -/

/-- C9: `query` with an empty filter set returns the empty result list on
every store state (the `if candidate_indices:` guard treats the initial
`None` accumulator as falsy); the full record set is never returned. -/
theorem c9_empty_filter_returns_empty (s : Store40D.Store)
    (operators : List (String × Store40D.QOp)) :
    (s.query [] operators).2 = Except.ok [] := rfl

/-! ## C8: CARE pool arithmetic -/

/-- When the stored record declares a numeric `"value"` field, the pool
grows by `value * mandate` and the mandate is unchanged. -/
theorem store_care_pool_of_value (s : Store40D.Store) (c : Content) (ts bc : Nat)
    (v : Val) (x : Rat) (h1 : contentGet c "value" = some v)
    (h2 : Store40D.valNum v = some x) :
    (s.store c ts bc).1.care_pool = s.care_pool + x * s.care_mandate ∧
    (s.store c ts bc).1.care_mandate = s.care_mandate := by
  simp only [Store40D.Store.store, h1, h2]
  refine ⟨?_, ?_⟩ <;> first | rfl | trivial

/-- The three-record C8 scenario: mandate 0.15, declared values 1000, 2000
and 500. -/
def c8Store : Store40D.Store :=
  ((((Store40D.Store.init (15/100)).store
      [("brand", Val.s "Brand1"), ("value", Val.q 1000)] 0 0).1.store
      [("brand", Val.s "Brand2"), ("value", Val.q 2000)] 0 0).1.store
      [("brand", Val.s "Brand3"), ("value", Val.q 500)] 0 0).1

/-- C8: starting from a store with mandate fraction 0.15 and an empty pool,
storing three records with declared numeric values 1000, 2000 and 500 yields
a redistribution pool of exactly 525.  (The rational model is exact; the
Python float computation also produces exactly 525.0, as 150, 300, 75 and
their partial sums are exactly representable doubles and each product rounds
to them.) -/
theorem c8_care_pool_exact : c8Store.care_pool = 525 := by
  have h1 := store_care_pool_of_value (Store40D.Store.init (15/100))
    [("brand", Val.s "Brand1"), ("value", Val.q 1000)] 0 0 (Val.q 1000) 1000 rfl rfl
  have h2 := store_care_pool_of_value
    ((Store40D.Store.init (15/100)).store
      [("brand", Val.s "Brand1"), ("value", Val.q 1000)] 0 0).1
    [("brand", Val.s "Brand2"), ("value", Val.q 2000)] 0 0 (Val.q 2000) 2000 rfl rfl
  have h3 := store_care_pool_of_value
    (((Store40D.Store.init (15/100)).store
      [("brand", Val.s "Brand1"), ("value", Val.q 1000)] 0 0).1.store
      [("brand", Val.s "Brand2"), ("value", Val.q 2000)] 0 0).1
    [("brand", Val.s "Brand3"), ("value", Val.q 500)] 0 0 (Val.q 500) 500 rfl rfl
  have hm0 : (Store40D.Store.init (15/100)).care_mandate = 15/100 := rfl
  have hp0 : (Store40D.Store.init (15/100)).care_pool = 0 := rfl
  unfold c8Store
  rw [h3.1, h2.1, h1.1, h2.2, h1.2, hm0, hp0]
  norm_num

/-! ## Ingest lemmas -/

/-- `bumpEcho` does not change the genome. -/
theorem bumpEcho_genome (g : Genome) (m : Memory) : (bumpEcho g m).genome = m.genome := by
  unfold bumpEcho; split <;> rfl

/-- `find?` commutes with a map that preserves the predicate. -/
theorem find?_map_of_pred (l : List α) (f : α → α) (p : α → Bool)
    (h : ∀ a, p (f a) = p a) : (l.map f).find? p = (l.find? p).map f := by
  induction l with
  | nil => rfl
  | cons a t ih =>
      simp only [List.map_cons, List.find?_cons, h a]
      cases hp : p a <;> simp [ih]

/-- Mapping every bucket maps the flattened memory list. -/
theorem allMems_pages_map (s : EM) (f : Memory → Memory) (te : Nat) :
    (EM.allMems
      { s with pages := fun q => (s.pages q).map f, total_echoes := te })
      = s.allMems.map f := by
  simp [EM.allMems, List.map_flatMap]

/-- `ingest` always returns the content's genome. -/
theorem ingest_snd (s : EM) (now : Nat) (c : Content) (tags : List String) :
    (s.ingest now c tags).2 = computeGenome c := by
  unfold EM.ingest
  dsimp only
  split <;> rfl

/-- The duplicate branch of `ingest`: echo bump, no new memory. -/
theorem ingest_dedup (s : EM) (now : Nat) (c : Content) (tags : List String)
    (h : s.allMems.any (fun m => m.genome = computeGenome c) = true) :
    (s.ingest now c tags).1
      = { s with
            pages := fun q => (s.pages q).map (bumpEcho (computeGenome c)),
            total_echoes := s.total_echoes + 1 } := by
  unfold EM.ingest
  dsimp only
  rw [if_pos h]

/-- The memory object created by a non-duplicate `ingest`. -/
def freshMemory (s : EM) (now : Nat) (c : Content) (tags : List String) : Memory :=
  { content := c, timestamp := now, genome := computeGenome c, strength := 1,
    phase := .INTAKE, page := 1, generation := s.current_generation,
    herd_validations := 0, echo_count := 0, tags := tags, associations := [] }

/-- The fresh branch of `ingest`: a new INTAKE memory in page 1. -/
theorem ingest_new (s : EM) (now : Nat) (c : Content) (tags : List String)
    (h : ¬ s.allMems.any (fun m => m.genome = computeGenome c) = true) :
    (s.ingest now c tags).1
      = { s with
            pages := Function.update s.pages 1
              (s.pages 1 ++ [freshMemory s now c tags]),
            tag_index := tags.foldl
              (fun idx t => tagIndexAdd t (computeGenome c) idx) s.tag_index,
            total_memories := s.total_memories + 1 } := by
  unfold EM.ingest
  dsimp only
  rw [if_neg h]
  rfl

/-- After any `ingest` of `c`, a memory with `c`'s genome is present. -/
theorem presence_after_ingest (s : EM) (now : Nat) (c : Content)
    (tags : List String) :
    (s.ingest now c tags).1.allMems.any
      (fun m => m.genome = computeGenome c) = true := by
  by_cases h : s.allMems.any (fun m => m.genome = computeGenome c) = true
  · rw [ingest_dedup s now c tags h, allMems_pages_map, List.any_map]
    rw [show ((fun m => decide (m.genome = computeGenome c)) ∘
        bumpEcho (computeGenome c))
        = fun m => decide (m.genome = computeGenome c) by
      funext m; simp [bumpEcho_genome]]
    exact h
  · rw [ingest_new s now c tags h]
    apply List.any_eq_true.mpr
    refine ⟨freshMemory s now c tags, ?_, by simp [freshMemory]⟩
    show _ ∈ EM.allMems _
    unfold EM.allMems
    apply List.mem_flatMap.mpr
    exact ⟨1, by decide, by simp [Function.update]⟩

/-! ## C4: idempotent ingest -/

/-- C4: ingesting the same content twice returns the same genome both times,
creates no second memory on the second call (the flattened memory list keeps
its length), and increments the existing memory's echo counter — and the
global echo statistic — exactly once across the second call. -/
theorem c4_idempotent_ingest (s : EM) (now1 now2 : Nat) (c : Content)
    (tags1 tags2 : List String) :
    (s.ingest now1 c tags1).2 = computeGenome c ∧
    ((s.ingest now1 c tags1).1.ingest now2 c tags2).2 = computeGenome c ∧
    ((s.ingest now1 c tags1).1.ingest now2 c tags2).1.allMems.length
      = (s.ingest now1 c tags1).1.allMems.length ∧
    ((s.ingest now1 c tags1).1.ingest now2 c tags2).1.total_echoes
      = (s.ingest now1 c tags1).1.total_echoes + 1 ∧
    ∃ m1 m2,
      (s.ingest now1 c tags1).1.findMem (computeGenome c) = some m1 ∧
      ((s.ingest now1 c tags1).1.ingest now2 c tags2).1.findMem (computeGenome c)
        = some m2 ∧
      m2.echo_count = m1.echo_count + 1 := by
  have hpres := presence_after_ingest s now1 c tags1
  have hded := ingest_dedup (s.ingest now1 c tags1).1 now2 c tags2 hpres
  have hall : ((s.ingest now1 c tags1).1.ingest now2 c tags2).1.allMems
      = (s.ingest now1 c tags1).1.allMems.map (bumpEcho (computeGenome c)) := by
    rw [hded]; exact allMems_pages_map _ _ _
  refine ⟨ingest_snd _ _ _ _, ingest_snd _ _ _ _, ?_, ?_, ?_⟩
  · rw [hall, List.length_map]
  · rw [hded]
  · have hfind1 : ∃ m1, (s.ingest now1 c tags1).1.findMem (computeGenome c)
        = some m1 := by
      obtain ⟨m, hm, hpm⟩ := List.any_eq_true.mp hpres
      have : ((s.ingest now1 c tags1).1.allMems.find?
          (fun m => m.genome = computeGenome c)).isSome := by
        rw [List.find?_isSome]
        exact ⟨m, hm, hpm⟩
      obtain ⟨m1, hm1⟩ := Option.isSome_iff_exists.mp this
      exact ⟨m1, hm1⟩
    obtain ⟨m1, hm1⟩ := hfind1
    refine ⟨m1, bumpEcho (computeGenome c) m1, hm1, ?_, ?_⟩
    · show _ = some (bumpEcho (computeGenome c) m1)
      unfold EM.findMem at hm1 ⊢
      rw [hall, find?_map_of_pred _ _ _ (by
        intro a; simp [bumpEcho_genome]), hm1]
      rfl
    · have hg : m1.genome = computeGenome c := by
        have := List.find?_some hm1
        simpa using this
      unfold bumpEcho
      rw [if_pos hg]

/-! ## C10: recall limit is applied before ranking -/

/-- The scan with early exit collects the first `limit` matches in scan
order. -/
theorem scanCollect_eq_take (cond : Memory → Bool) (limit : Nat) :
    ∀ (l : List Memory) (acc : List Memory), acc.length < limit →
      scanCollect cond limit acc l = acc ++ (l.filter cond).take (limit - acc.length) := by
  intro l
  induction l with
  | nil => intro acc _; simp [scanCollect]
  | cons m rest ih =>
      intro acc hlt
      have hl : (acc ++ [m]).length = acc.length + 1 := by simp
      by_cases hc : cond m
      · simp only [scanCollect, hc, if_true]
        by_cases hstop : limit ≤ (acc ++ [m]).length
        · rw [if_pos hstop]
          have : limit - acc.length = 1 := by omega
          simp [List.filter_cons, hc, this]
        · rw [if_neg hstop]
          rw [ih (acc ++ [m]) (by omega)]
          have h1 : limit - acc.length = (limit - (acc ++ [m]).length) + 1 := by
            omega
          simp only [List.filter_cons, hc, if_true]
          rw [h1, hl]
          simp [List.take_succ_cons, List.append_assoc]
      · simp only [scanCollect, hc, if_false]
        rw [ih acc hlt]
        simp [List.filter_cons, hc]

/-- The C10 scenario: one memory with echo count 0 ingested before one whose
content is re-ingested three more times (echo count 3). -/
def c10s : EM :=
  (((((EM.init.ingest 0 [("event", Val.s "A")] []).1.ingest 0
      [("event", Val.s "B")] []).1.ingest 0 [("event", Val.s "B")]
      []).1.ingest 0 [("event", Val.s "B")] []).1.ingest 0
      [("event", Val.s "B")] []).1

/-- C10: in `recall` with tag/phase filters, the limit cutoff is applied
during the bucket scan, before ranking: the result is always the first
`limit` matches in page-scan (insertion) order, sorted among themselves by
(strength, echo_count) descending — and, witnessed concretely, this differs
from returning the `limit` highest-ranked matches overall. -/
theorem c10_limit_before_rank :
    (∀ (s : EM) (tags : Option (List String)) (phase : Option Phase)
        (limit : Nat),
      s.recall tags phase limit
        = (rankSort ((s.allMems.filter (recallCond tags phase)).take
            limit)).take limit) ∧
    c10s.recall none none 1
      ≠ (rankSort (c10s.allMems.filter (recallCond none none))).take 1 := by
  constructor
  · intro s tags phase limit
    unfold EM.recall
    rcases Nat.eq_zero_or_pos limit with h0 | hpos
    · subst h0; simp
    · rw [show scanCollect (recallCond tags phase) limit [] s.allMems
          = [] ++ (s.allMems.filter (recallCond tags phase)).take (limit - 0) from
        scanCollect_eq_take _ _ _ [] (by simpa using hpos)]
      simp
  · decide

def totalCntL (P : Memory → Bool) (L : List Nat) (f : PagesT) : Nat :=
  (L.map (fun q => (f q).countP P)).sum

theorem totalCntL_update (P : Memory → Bool) :
    ∀ (L : List Nat), L.Nodup → ∀ (a : Nat), a ∈ L → ∀ (f : PagesT) (v : List Memory),
      totalCntL P L (Function.update f a v) + (f a).countP P
        = totalCntL P L f + v.countP P := by
  intro L
  induction L with
  | nil => intro _ a ha; cases ha
  | cons x t ih =>
      intro hnd a ha f v
      rcases List.mem_cons.mp ha with rfl | hat
      · have hxt : a ∉ t := (List.nodup_cons.mp hnd).1
        have hupd : ∀ q ∈ t, Function.update f a v q = f q := by
          intro q hq
          rw [Function.update_apply]
          rw [if_neg (fun h : q = a => hxt (h ▸ hq))]
        simp only [totalCntL, List.map_cons, List.sum_cons, Function.update_same]
        rw [List.map_congr_left (fun q hq => by rw [hupd q hq])]
        omega
      · have hxa : x ≠ a := fun h => (List.nodup_cons.mp hnd).1 (h ▸ hat)
        have hrec := ih (List.nodup_cons.mp hnd).2 a hat f v
        simp only [totalCntL, List.map_cons, List.sum_cons] at hrec ⊢
        rw [Function.update_apply, if_neg hxa]
        omega

theorem countP_partition (p : α → Bool) (q : α → Bool) (l : List α) :
    (l.filter (fun x => !q x)).countP p + (l.filter q).countP p = l.countP p := by
  induction l with
  | nil => rfl
  | cons x t ih =>
      by_cases hq : q x <;> by_cases hp : p x <;>
        simp [List.filter_cons, hq, List.countP_cons, hp] <;> omega

theorem countP_flatMap (P : Memory → Bool) (L : List Nat) (f : PagesT) :
    (L.flatMap f).countP P = totalCntL P L f := by
  induction L with
  | nil => rfl
  | cons x t ih => simp [List.flatMap_cons, List.countP_append, ih, totalCntL]

theorem stepPages_totalCnt (act : Memory → Memory × Bool) (tgt : Nat)
    (P : Memory → Bool) (hact : ∀ m, P (act m).1 = P m)
    (htgt : tgt ∈ pageList) :
    ∀ (src : List Nat) (pages : PagesT), src.Nodup → tgt ∉ src →
      (∀ p ∈ src, p ∈ pageList) →
      totalCntL P pageList (stepPages act tgt src pages).1
        = totalCntL P pageList pages := by
  intro src
  induction src with
  | nil => intro pages _ _ _; rfl
  | cons p rest ih =>
      intro pages hnd ht hsub
      have hpt : tgt ≠ p := fun h => ht (h ▸ List.mem_cons_self p rest)
      have hppl : p ∈ pageList := hsub p (List.mem_cons_self p rest)
      have hplnd : pageList.Nodup := by decide
      simp only [stepPages]
      rw [ih _ (List.nodup_cons.mp hnd).2
        (fun h => ht (List.mem_cons_of_mem p h))
        (fun q hq => hsub q (List.mem_cons_of_mem p hq))]
      have A1 := totalCntL_update P pageList hplnd p hppl pages
        ((((pages p).map act).filter (fun x => !x.2)).map Prod.fst)
      have A2 := totalCntL_update P pageList hplnd tgt htgt
        (Function.update pages p
          ((((pages p).map act).filter (fun x => !x.2)).map Prod.fst))
        (pages tgt ++ (((pages p).map act).filter (fun x => x.2)).map Prod.fst)
      have hu1tgt : Function.update pages p
          ((((pages p).map act).filter (fun x => !x.2)).map Prod.fst) tgt
          = pages tgt := by
        rw [Function.update_apply, if_neg hpt]
      rw [hu1tgt] at A2
      have A3 : (pages tgt
            ++ (((pages p).map act).filter (fun x => x.2)).map Prod.fst).countP P
          = (pages tgt).countP P
            + ((((pages p).map act).filter (fun x => x.2)).map Prod.fst).countP P :=
        List.countP_append _ _ _
      have h1 : ((((pages p).map act).filter (fun x => !x.2)).map Prod.fst).countP P
          = (((pages p).map act).filter (fun x => !x.2)).countP (P ∘ Prod.fst) :=
        List.countP_map _ _ _
      have h2 : ((((pages p).map act).filter (fun x => x.2)).map Prod.fst).countP P
          = (((pages p).map act).filter (fun x => x.2)).countP (P ∘ Prod.fst) :=
        List.countP_map _ _ _
      have h3 := countP_partition (P ∘ Prod.fst) (fun x => x.2) ((pages p).map act)
      have h4 : ((pages p).map act).countP (P ∘ Prod.fst)
          = (pages p).countP ((P ∘ Prod.fst) ∘ act) := List.countP_map _ _ _
      have h5 : (pages p).countP ((P ∘ Prod.fst) ∘ act) = (pages p).countP P := by
        apply List.countP_congr
        intro m _
        simp [Function.comp, hact m]
      omega

theorem mem_filtmap_back (act : Memory → Memory × Bool) (l : List Memory)
    (pred : Memory × Bool → Bool) (m' : Memory)
    (h : m' ∈ ((l.map act).filter pred).map Prod.fst) :
    ∃ m ∈ l, m' = (act m).1 := by
  obtain ⟨x, hx, hfst⟩ := List.mem_map.mp h
  have hx' : x ∈ l.map act := List.mem_of_mem_filter hx
  obtain ⟨m, hm, hax⟩ := List.mem_map.mp hx'
  exact ⟨m, hm, by rw [← hfst, ← hax]⟩

theorem stepPages_back (act : Memory → Memory × Bool) (tgt : Nat) :
    ∀ (src : List Nat) (pages : PagesT), src.Nodup → tgt ∉ src →
      ∀ (q : Nat) (m' : Memory), m' ∈ (stepPages act tgt src pages).1 q →
        m' ∈ pages q ∨ ∃ p ∈ src, ∃ m ∈ pages p, m' = (act m).1 := by
  intro src
  induction src with
  | nil => intro pages _ _ q m' h; exact Or.inl h
  | cons p rest ih =>
      intro pages hnd ht q m' h
      have hpt : tgt ≠ p := fun hh => ht (hh ▸ List.mem_cons_self p rest)
      simp only [stepPages] at h
      rcases ih _ (List.nodup_cons.mp hnd).2
          (fun hh => ht (List.mem_cons_of_mem p hh)) q m' h with hq | ⟨p', hp', m, hm, hrel⟩
      · -- m' was already in pages1 q
        rw [Function.update_apply] at hq
        by_cases hqt : q = tgt
        · rw [if_pos hqt] at hq
          rcases List.mem_append.mp hq with hl | hr
          · exact Or.inl (by rw [hqt]; exact hl)
          · exact Or.inr ⟨p, List.mem_cons_self p rest,
              mem_filtmap_back act _ _ _ hr⟩
        · rw [if_neg hqt, Function.update_apply] at hq
          by_cases hqp : q = p
          · rw [if_pos hqp] at hq
            subst hqp
            exact Or.inr ⟨q, List.mem_cons_self q rest,
              mem_filtmap_back act _ _ _ hq⟩
          · rw [if_neg hqp] at hq
            exact Or.inl hq
      · -- m' is the image of a memory in pages1 p', p' ∈ rest
        have hp'p : p' ≠ p := fun hh =>
          (List.nodup_cons.mp hnd).1 (hh ▸ hp')
        have hp't : p' ≠ tgt := fun hh => ht (hh ▸ List.mem_cons_of_mem p hp')
        rw [Function.update_apply, if_neg hp't, Function.update_apply,
          if_neg hp'p] at hm
        exact Or.inr ⟨p', List.mem_cons_of_mem p hp', m, hm, hrel⟩

theorem stepPages_back_allMems (act : Memory → Memory × Bool) (tgt : Nat)
    (src : List Nat) (hnd : src.Nodup) (ht : tgt ∉ src)
    (hsub : ∀ p ∈ src, p ∈ pageList) (pages : PagesT) (m' : Memory)
    (h : m' ∈ pageList.flatMap (stepPages act tgt src pages).1) :
    ∃ m ∈ pageList.flatMap pages, m' = m ∨ m' = (act m).1 := by
  obtain ⟨q, hq, hmq⟩ := List.mem_flatMap.mp h
  rcases stepPages_back act tgt src pages hnd ht q m' hmq with h1 | ⟨p, hp, m, hm, he⟩
  · exact ⟨m', List.mem_flatMap.mpr ⟨q, hq, h1⟩, Or.inl rfl⟩
  · exact ⟨m, List.mem_flatMap.mpr ⟨p, hsub p hp, hm⟩, Or.inr he⟩

/-- Facts about a per-memory action needed for the lifecycle invariants. -/
structure ActFacts (act : Memory → Memory × Bool) : Prop where
  genome : ∀ m, (act m).1.genome = m.genome
  phase : ∀ m, (act m).1.phase = m.phase ∨ (act m).1.phase.idx = m.phase.idx + 1
  strength_mono : ∀ m, m.strength ≤ 1 → m.strength ≤ (act m).1.strength
  strength_bounds : ∀ m, 0 ≤ m.strength → m.strength ≤ 1 →
    0 ≤ (act m).1.strength ∧ (act m).1.strength ≤ 1

theorem trunkAct_facts : ActFacts trunkAct := by
  constructor <;> intro m <;> unfold trunkAct <;> split
  case _ h => rfl
  case _ => rfl
  case _ h => rw [h.1]; exact Or.inr rfl
  case _ => exact Or.inl rfl
  all_goals intro hs
  case _ => exact le_refl _
  case _ => exact le_refl _
  all_goals intro hs1
  case _ => exact ⟨hs, hs1⟩
  case _ => exact ⟨hs, hs1⟩

theorem herdAct_facts : ActFacts herdAct := by
  constructor <;> intro m <;> (unfold herdAct; dsimp only)
  · split
    · split <;> rfl
    · rfl
  · split
    case _ h =>
      split
      · rw [h]; exact Or.inr rfl
      · exact Or.inl rfl
    case _ => exact Or.inl rfl
  · intro hs
    split
    · split
      · show m.strength ≤ min 1 (m.strength + 1/10)
        apply le_min hs
        linarith
      · exact le_refl _
    · exact le_refl _
  · intro hs0 hs1
    split
    · split
      · constructor
        · show (0:Rat) ≤ min 1 (m.strength + 1/10)
          apply le_min (by norm_num)
          linarith
        · show min 1 (m.strength + 1/10) ≤ 1
          exact min_le_left _ _
      · exact ⟨hs0, hs1⟩
    · exact ⟨hs0, hs1⟩

theorem encodeAct_facts (tagIdx : List (String × List Genome)) :
    ActFacts (encodeAct tagIdx) := by
  constructor <;> intro m <;> unfold encodeAct <;> split
  case _ h => rfl
  case _ => rfl
  case _ h => rw [h]; exact Or.inr rfl
  case _ => exact Or.inl rfl
  all_goals intro hs
  case _ => exact hs
  case _ => exact le_refl _
  all_goals intro hs1
  case _ => exact ⟨by norm_num, by norm_num⟩
  case _ => exact ⟨hs, hs1⟩

theorem genAct_facts : ActFacts genAct := by
  constructor <;> intro m <;> unfold genAct <;> split
  case _ h => rfl
  case _ => rfl
  case _ h => rw [h]; exact Or.inr rfl
  case _ => exact Or.inl rfl
  all_goals intro hs
  case _ => exact le_refl _
  case _ => exact le_refl _
  all_goals intro hs1
  case _ => exact ⟨hs, hs1⟩
  case _ => exact ⟨hs, hs1⟩

theorem echoAct_facts : ActFacts echoAct := by
  constructor <;> intro m <;> unfold echoAct <;> split
  case _ h => rfl
  case _ => rfl
  case _ h => rw [h]; exact Or.inr rfl
  case _ => exact Or.inl rfl
  all_goals intro hs
  case _ => exact le_refl _
  case _ => exact le_refl _
  all_goals intro hs1
  case _ => exact ⟨hs, hs1⟩
  case _ => exact ⟨hs, hs1⟩

/-- Genome uniqueness: each genome occurs at most once across all buckets
(the "exactly one page bucket" invariant). -/
def GUL (l : List Memory) : Prop :=
  ∀ g : Genome, l.countP (fun m => m.genome = g) ≤ 1

/-- Strength bounds: every memory's strength lies in `[0, 1]`. -/
def SBL (l : List Memory) : Prop :=
  ∀ m ∈ l, 0 ≤ m.strength ∧ m.strength ≤ 1

/-- Genome lookup over raw page buckets. -/
def findPg (pages : PagesT) (g : Genome) : Option Memory :=
  (pageList.flatMap pages).find? (fun m => m.genome = g)

/-- One advance step never skips a phase, never moves backward, and never
lowers strength, memory by memory. -/
def stepNoSkip (pages pages' : PagesT) : Prop :=
  ∀ (g : Genome) (m m' : Memory),
    findPg pages g = some m → findPg pages' g = some m' →
      (m'.phase = m.phase ∨ m'.phase.idx = m.phase.idx + 1) ∧
      m.strength ≤ m'.strength

theorem countP_le_one_eq {l : List α} {p : α → Bool} (h : l.countP p ≤ 1)
    {a b : α} (ha : a ∈ l) (hb : b ∈ l) (hpa : p a = true) (hpb : p b = true) :
    a = b := by
  induction l with
  | nil => cases ha
  | cons x t ih =>
      rw [List.countP_cons] at h
      rcases List.mem_cons.mp ha with rfl | hat
      · rcases List.mem_cons.mp hb with rfl | hbt
        · rfl
        · exfalso
          have hpos : 0 < t.countP p := List.countP_pos_iff.mpr ⟨b, hbt, hpb⟩
          have hone : (if p a = true then 1 else 0) = 1 := by simp [hpa]
          rw [hone] at h
          omega
      · rcases List.mem_cons.mp hb with rfl | hbt
        · exfalso
          have hpos : 0 < t.countP p := List.countP_pos_iff.mpr ⟨a, hat, hpa⟩
          have hone : (if p b = true then 1 else 0) = 1 := by simp [hpb]
          rw [hone] at h
          omega
        · have hle : t.countP p ≤ 1 := by
            have hnn : 0 ≤ (if p x = true then 1 else 0) := by positivity
            omega
          exact ih hle hat hbt

theorem step_genome_countP (act : Memory → Memory × Bool) (tgt : Nat)
    (src : List Nat) (hg : ∀ m, (act m).1.genome = m.genome)
    (htgt : tgt ∈ pageList) (hnd : src.Nodup) (ht : tgt ∉ src)
    (hsub : ∀ p ∈ src, p ∈ pageList) (pages : PagesT) (g : Genome) :
    (pageList.flatMap (stepPages act tgt src pages).1).countP
        (fun m => m.genome = g)
      = (pageList.flatMap pages).countP (fun m => m.genome = g) := by
  rw [countP_flatMap, countP_flatMap]
  exact stepPages_totalCnt act tgt _ (fun m => by simp [hg m]) htgt src pages
    hnd ht hsub

theorem step_GUL (act : Memory → Memory × Bool) (tgt : Nat)
    (src : List Nat) (hg : ∀ m, (act m).1.genome = m.genome)
    (htgt : tgt ∈ pageList) (hnd : src.Nodup) (ht : tgt ∉ src)
    (hsub : ∀ p ∈ src, p ∈ pageList) (pages : PagesT)
    (h : GUL (pageList.flatMap pages)) :
    GUL (pageList.flatMap (stepPages act tgt src pages).1) := by
  intro g
  rw [step_genome_countP act tgt src hg htgt hnd ht hsub]
  exact h g

theorem step_SBL (act : Memory → Memory × Bool) (tgt : Nat)
    (src : List Nat) (hF : ActFacts act) (hnd : src.Nodup) (ht : tgt ∉ src)
    (hsub : ∀ p ∈ src, p ∈ pageList) (pages : PagesT)
    (h : SBL (pageList.flatMap pages)) :
    SBL (pageList.flatMap (stepPages act tgt src pages).1) := by
  intro m' hm'
  obtain ⟨m, hm, hrel⟩ :=
    stepPages_back_allMems act tgt src hnd ht hsub pages m' hm'
  rcases hrel with heq | heq
  · rw [heq]; exact h _ hm
  · rw [heq]; exact hF.strength_bounds _ (h _ hm).1 (h _ hm).2

theorem step_findPg_rel (act : Memory → Memory × Bool) (tgt : Nat)
    (src : List Nat) (hg : ∀ m, (act m).1.genome = m.genome)
    (hnd : src.Nodup) (ht : tgt ∉ src) (hsub : ∀ p ∈ src, p ∈ pageList)
    (pages : PagesT) (hGU : GUL (pageList.flatMap pages)) (g : Genome)
    (m m' : Memory) (h1 : findPg pages g = some m)
    (h2 : findPg (stepPages act tgt src pages).1 g = some m') :
    m' = m ∨ m' = (act m).1 := by
  have hm'mem : m' ∈ pageList.flatMap (stepPages act tgt src pages).1 :=
    List.mem_of_find?_eq_some h2
  have hm'g : m'.genome = g := by
    have := List.find?_some h2
    simpa using this
  obtain ⟨m0, hm0, hrel⟩ :=
    stepPages_back_allMems act tgt src hnd ht hsub pages m' hm'mem
  have hm0g : m0.genome = g := by
    rcases hrel with rfl | rfl
    · exact hm'g
    · rw [← hg m0]; exact hm'g
  have hmmem : m ∈ pageList.flatMap pages := List.mem_of_find?_eq_some h1
  have hmg : m.genome = g := by
    have := List.find?_some h1
    simpa using this
  have : m0 = m :=
    countP_le_one_eq (hGU g) hm0 hmmem (by simp [hm0g]) (by simp [hmg])
  rw [this] at hrel
  exact hrel

theorem step_noSkip (act : Memory → Memory × Bool) (tgt : Nat)
    (src : List Nat) (hF : ActFacts act) (hnd : src.Nodup) (ht : tgt ∉ src)
    (hsub : ∀ p ∈ src, p ∈ pageList) (pages : PagesT)
    (hGU : GUL (pageList.flatMap pages)) (hSB : SBL (pageList.flatMap pages)) :
    stepNoSkip pages (stepPages act tgt src pages).1 := by
  intro g m m' h1 h2
  rcases step_findPg_rel act tgt src hF.genome hnd ht hsub pages hGU g m m' h1 h2
    with rfl | rfl
  · exact ⟨Or.inl rfl, le_refl _⟩
  · refine ⟨hF.phase m, ?_⟩
    exact hF.strength_mono m (hSB m (List.mem_of_find?_eq_some h1)).2

/-- Buckets after the TRUNK_SORT step of a cycle. -/
def cyclePages1 (s : EM) : PagesT := (stepPages trunkAct 9 intakePages s.pages).1

/-- Buckets after the HERD_CONSENSUS step. -/
def cyclePages2 (s : EM) : PagesT :=
  (stepPages herdAct 17 trunkPages (cyclePages1 s)).1

/-- Buckets after the MEMORY_ENCODE step. -/
def cyclePages3 (s : EM) : PagesT :=
  (stepPages (encodeAct s.tag_index) 25 consensusPages (cyclePages2 s)).1

/-- Buckets after the GENERATIONAL_PASS step. -/
def cyclePages4 (s : EM) : PagesT :=
  (stepPages genAct 33 encodePages (cyclePages3 s)).1

/-- Buckets after the ECHO_AMPLIFY step: the buckets `breath_cycle`
returns. -/
def cyclePages5 (s : EM) : PagesT :=
  (stepPages echoAct 41 genPages (cyclePages4 s)).1

theorem generational_pass_pages (s : EM) (now : Nat) :
    (s.generational_pass now).1.pages
      = (stepPages genAct 33 encodePages s.pages).1 := by
  unfold EM.generational_pass
  dsimp only
  split <;> rfl

theorem generational_pass_tag_index (s : EM) (now : Nat) :
    (s.generational_pass now).1.tag_index = s.tag_index := by
  unfold EM.generational_pass
  dsimp only
  split <;> rfl

/-- `breath_cycle` applies exactly the five bucket passes, in the fixed
order TRUNK_SORT, HERD_CONSENSUS, MEMORY_ENCODE, GENERATIONAL_PASS,
ECHO_AMPLIFY. -/
theorem breath_cycle_pages (s : EM) (now : Nat) :
    (s.breath_cycle now).1.pages = cyclePages5 s := by
  simp only [EM.breath_cycle]
  have h1 : ((((s.trunk_sort).1.herd_consensus).1.memory_encode).1.generational_pass
      now).1.echo_amplify.1.pages
      = (stepPages echoAct 41 genPages
          ((((s.trunk_sort).1.herd_consensus).1.memory_encode).1.generational_pass
            now).1.pages).1 := rfl
  have h2 := generational_pass_pages (((s.trunk_sort).1.herd_consensus).1.memory_encode).1 now
  have h3 : (((s.trunk_sort).1.herd_consensus).1.memory_encode).1.pages
      = (stepPages (encodeAct ((s.trunk_sort).1.herd_consensus).1.tag_index) 25
          consensusPages ((s.trunk_sort).1.herd_consensus).1.pages).1 := rfl
  have h4 : ((s.trunk_sort).1.herd_consensus).1.tag_index = s.tag_index := rfl
  have h5 : ((s.trunk_sort).1.herd_consensus).1.pages
      = (stepPages herdAct 17 trunkPages (s.trunk_sort).1.pages).1 := rfl
  have h6 : (s.trunk_sort).1.pages
      = (stepPages trunkAct 9 intakePages s.pages).1 := rfl
  show ((((s.trunk_sort).1.herd_consensus).1.memory_encode).1.generational_pass
      now).1.echo_amplify.1.pages = cyclePages5 s
  rw [h1, h2, h3, h4, h5, h6]
  rfl

theorem bumpEcho_strength (g : Genome) (m : Memory) :
    (bumpEcho g m).strength = m.strength := by
  unfold bumpEcho; split <;> rfl

theorem bumpEcho_phase (g : Genome) (m : Memory) :
    (bumpEcho g m).phase = m.phase := by
  unfold bumpEcho; split <;> rfl

/-- Pages 2..46. -/
def pageListTail : List Nat :=
  [2, 3, 4, 5, 6, 7, 8, 9, 10, 11, 12, 13, 14, 15, 16, 17, 18, 19, 20,
   21, 22, 23, 24, 25, 26, 27, 28, 29, 30, 31, 32, 33, 34, 35, 36, 37, 38,
   39, 40, 41, 42, 43, 44, 45, 46]

theorem flatMap_congr_mem (L : List Nat) (f g : PagesT)
    (h : ∀ q ∈ L, f q = g q) : L.flatMap f = L.flatMap g := by
  induction L with
  | nil => rfl
  | cons x t ih =>
      rw [List.flatMap_cons, List.flatMap_cons, h x (List.mem_cons_self x t),
        ih (fun q hq => h q (List.mem_cons_of_mem x hq))]

theorem allMems_decomp (pages : PagesT) :
    pageList.flatMap pages = pages 1 ++ pageListTail.flatMap pages := rfl

theorem allMems_ingest_new (s : EM) (now : Nat) (c : Content)
    (tags : List String)
    (h : ¬ s.allMems.any (fun m => m.genome = computeGenome c) = true) :
    (s.ingest now c tags).1.allMems
      = (s.pages 1 ++ [freshMemory s now c tags])
          ++ pageListTail.flatMap s.pages := by
  rw [ingest_new s now c tags h]
  show pageList.flatMap (Function.update s.pages 1
      (s.pages 1 ++ [freshMemory s now c tags])) = _
  rw [allMems_decomp, Function.update_same]
  rw [flatMap_congr_mem pageListTail _ s.pages (fun q hq => by
    rw [Function.update_apply, if_neg (fun h1 : q = 1 => by
      subst h1; revert hq; decide)])]

theorem ingest_Inv (s : EM) (now : Nat) (c : Content) (tags : List String)
    (hGU : GUL s.allMems) (hSB : SBL s.allMems) :
    GUL (s.ingest now c tags).1.allMems ∧ SBL (s.ingest now c tags).1.allMems := by
  by_cases h : s.allMems.any (fun m => m.genome = computeGenome c) = true
  · have hst := ingest_dedup s now c tags h
    rw [hst]
    rw [show (EM.allMems { s with
        pages := fun q => (s.pages q).map (bumpEcho (computeGenome c)),
        total_echoes := s.total_echoes + 1 })
      = s.allMems.map (bumpEcho (computeGenome c)) from allMems_pages_map s _ _]
    constructor
    · intro g
      rw [List.countP_map]
      have hc2 : s.allMems.countP
          ((fun m => decide (m.genome = g)) ∘ bumpEcho (computeGenome c))
          = s.allMems.countP (fun m => decide (m.genome = g)) :=
        List.countP_congr (fun m _ => by simp [Function.comp, bumpEcho_genome])
      rw [hc2]
      exact hGU g
    · intro m' hm'
      obtain ⟨m, hm, rfl⟩ := List.mem_map.mp hm'
      rw [bumpEcho_strength]
      exact hSB m hm
  · rw [allMems_ingest_new s now c tags h]
    have hdec : s.allMems = s.pages 1 ++ pageListTail.flatMap s.pages :=
      allMems_decomp s.pages
    have hzero : s.allMems.countP
        (fun m => m.genome = computeGenome c) = 0 := by
      apply List.countP_eq_zero.mpr
      intro m hm
      simp only [decide_eq_true_eq]
      intro hg
      exact h (List.any_eq_true.mpr ⟨m, hm, by simp [hg]⟩)
    constructor
    · intro g
      rw [List.countP_append, List.countP_append]
      by_cases hgc : g = computeGenome c
      · rw [hdec, List.countP_append] at hzero
        have hz1 : (s.pages 1).countP (fun m => m.genome = g) = 0 := by
          rw [hgc]; omega
        have hz2 : (pageListTail.flatMap s.pages).countP
            (fun m => m.genome = g) = 0 := by
          rw [hgc]; omega
        have hfresh : ([freshMemory s now c tags]).countP
            (fun m => m.genome = g)
            = if (freshMemory s now c tags).genome = g then 1 else 0 := by
          simp [List.countP_cons]
        rw [hz1, hz2, hfresh]
        split <;> omega
      · have hfresh : ([freshMemory s now c tags]).countP
            (fun m => m.genome = g) = 0 := by
          apply List.countP_eq_zero.mpr
          intro m hm
          rw [List.mem_singleton] at hm
          subst hm
          simp only [decide_eq_true_eq, freshMemory]
          exact fun hh => hgc hh.symm
        have := hGU g
        rw [hdec, List.countP_append] at this
        omega
    · intro m' hm'
      rcases List.mem_append.mp hm' with h1 | h2
      · rcases List.mem_append.mp h1 with h11 | h12
        · exact hSB m' (by rw [hdec]; exact List.mem_append_left _ h11)
        · rw [List.mem_singleton] at h12
          subst h12
          constructor <;> norm_num [freshMemory]
      · exact hSB m' (by rw [hdec]; exact List.mem_append_right _ h2)

theorem cycle_stage_inv (s : EM) (hGU : GUL s.allMems) (hSB : SBL s.allMems) :
    (GUL (pageList.flatMap (cyclePages1 s)) ∧ SBL (pageList.flatMap (cyclePages1 s))) ∧
    (GUL (pageList.flatMap (cyclePages2 s)) ∧ SBL (pageList.flatMap (cyclePages2 s))) ∧
    (GUL (pageList.flatMap (cyclePages3 s)) ∧ SBL (pageList.flatMap (cyclePages3 s))) ∧
    (GUL (pageList.flatMap (cyclePages4 s)) ∧ SBL (pageList.flatMap (cyclePages4 s))) ∧
    (GUL (pageList.flatMap (cyclePages5 s)) ∧ SBL (pageList.flatMap (cyclePages5 s))) := by
  have h0 : GUL (pageList.flatMap s.pages) ∧ SBL (pageList.flatMap s.pages) :=
    ⟨hGU, hSB⟩
  have h1 : GUL (pageList.flatMap (cyclePages1 s)) ∧
      SBL (pageList.flatMap (cyclePages1 s)) :=
    ⟨step_GUL trunkAct 9 intakePages trunkAct_facts.genome (by decide)
        (by decide) (by decide) (by decide) s.pages h0.1,
     step_SBL trunkAct 9 intakePages trunkAct_facts (by decide) (by decide)
        (by decide) s.pages h0.2⟩
  have h2 : GUL (pageList.flatMap (cyclePages2 s)) ∧
      SBL (pageList.flatMap (cyclePages2 s)) :=
    ⟨step_GUL herdAct 17 trunkPages herdAct_facts.genome (by decide)
        (by decide) (by decide) (by decide) (cyclePages1 s) h1.1,
     step_SBL herdAct 17 trunkPages herdAct_facts (by decide) (by decide)
        (by decide) (cyclePages1 s) h1.2⟩
  have h3 : GUL (pageList.flatMap (cyclePages3 s)) ∧
      SBL (pageList.flatMap (cyclePages3 s)) :=
    ⟨step_GUL (encodeAct s.tag_index) 25 consensusPages
        (encodeAct_facts s.tag_index).genome (by decide) (by decide)
        (by decide) (by decide) (cyclePages2 s) h2.1,
     step_SBL (encodeAct s.tag_index) 25 consensusPages
        (encodeAct_facts s.tag_index) (by decide) (by decide) (by decide)
        (cyclePages2 s) h2.2⟩
  have h4 : GUL (pageList.flatMap (cyclePages4 s)) ∧
      SBL (pageList.flatMap (cyclePages4 s)) :=
    ⟨step_GUL genAct 33 encodePages genAct_facts.genome (by decide)
        (by decide) (by decide) (by decide) (cyclePages3 s) h3.1,
     step_SBL genAct 33 encodePages genAct_facts (by decide) (by decide)
        (by decide) (cyclePages3 s) h3.2⟩
  have h5 : GUL (pageList.flatMap (cyclePages5 s)) ∧
      SBL (pageList.flatMap (cyclePages5 s)) :=
    ⟨step_GUL echoAct 41 genPages echoAct_facts.genome (by decide)
        (by decide) (by decide) (by decide) (cyclePages4 s) h4.1,
     step_SBL echoAct 41 genPages echoAct_facts (by decide) (by decide)
        (by decide) (cyclePages4 s) h4.2⟩
  exact ⟨h1, h2, h3, h4, h5⟩

theorem cyc_apply_allMems (s : EM) (now : Nat) :
    ((EOp.cyc now).apply s).allMems = pageList.flatMap (cyclePages5 s) := by
  show (s.breath_cycle now).1.allMems = _
  unfold EM.allMems
  rw [breath_cycle_pages]

theorem reachable_Inv : ∀ s : EM, EM.Reachable s →
    GUL s.allMems ∧ SBL s.allMems := by
  intro s h
  induction h with
  | init =>
      have he : EM.init.allMems = [] := rfl
      constructor
      · intro g; rw [he]; simp [List.countP_nil]
      · intro m hm; rw [he] at hm; cases hm
  | step op hs ih =>
      cases op with
      | ing now c tags => exact ingest_Inv _ now c tags ih.1 ih.2
      | cyc now =>
          have hstage := cycle_stage_inv _ ih.1 ih.2
          constructor
          · intro g
            rw [cyc_apply_allMems]
            exact hstage.2.2.2.2.1 g
          · intro m hm
            rw [cyc_apply_allMems] at hm
            exact hstage.2.2.2.2.2 m hm

theorem findPg_isSome_count (pages : PagesT) (g : Genome) :
    (findPg pages g).isSome
      ↔ 0 < (pageList.flatMap pages).countP (fun m => m.genome = g) := by
  simp only [findPg, List.find?_isSome, List.countP_pos_iff,
    List.mem_flatMap, decide_eq_true_eq]

theorem cycle_stage_counts (s : EM) (g : Genome) :
    (pageList.flatMap (cyclePages1 s)).countP (fun m => m.genome = g)
        = (pageList.flatMap s.pages).countP (fun m => m.genome = g) ∧
    (pageList.flatMap (cyclePages2 s)).countP (fun m => m.genome = g)
        = (pageList.flatMap (cyclePages1 s)).countP (fun m => m.genome = g) ∧
    (pageList.flatMap (cyclePages3 s)).countP (fun m => m.genome = g)
        = (pageList.flatMap (cyclePages2 s)).countP (fun m => m.genome = g) ∧
    (pageList.flatMap (cyclePages4 s)).countP (fun m => m.genome = g)
        = (pageList.flatMap (cyclePages3 s)).countP (fun m => m.genome = g) ∧
    (pageList.flatMap (cyclePages5 s)).countP (fun m => m.genome = g)
        = (pageList.flatMap (cyclePages4 s)).countP (fun m => m.genome = g) :=
  ⟨step_genome_countP trunkAct 9 intakePages trunkAct_facts.genome (by decide)
      (by decide) (by decide) (by decide) s.pages g,
   step_genome_countP herdAct 17 trunkPages herdAct_facts.genome (by decide)
      (by decide) (by decide) (by decide) (cyclePages1 s) g,
   step_genome_countP (encodeAct s.tag_index) 25 consensusPages
      (encodeAct_facts s.tag_index).genome (by decide) (by decide) (by decide)
      (by decide) (cyclePages2 s) g,
   step_genome_countP genAct 33 encodePages genAct_facts.genome (by decide)
      (by decide) (by decide) (by decide) (cyclePages3 s) g,
   step_genome_countP echoAct 41 genPages echoAct_facts.genome (by decide)
      (by decide) (by decide) (by decide) (cyclePages4 s) g⟩

theorem cycle_stage_noSkip (s : EM) (hGU : GUL s.allMems) (hSB : SBL s.allMems) :
    stepNoSkip s.pages (cyclePages1 s) ∧
    stepNoSkip (cyclePages1 s) (cyclePages2 s) ∧
    stepNoSkip (cyclePages2 s) (cyclePages3 s) ∧
    stepNoSkip (cyclePages3 s) (cyclePages4 s) ∧
    stepNoSkip (cyclePages4 s) (cyclePages5 s) := by
  have hstage := cycle_stage_inv s hGU hSB
  exact ⟨step_noSkip trunkAct 9 intakePages trunkAct_facts (by decide)
      (by decide) (by decide) s.pages hGU hSB,
    step_noSkip herdAct 17 trunkPages herdAct_facts (by decide) (by decide)
      (by decide) (cyclePages1 s) hstage.1.1 hstage.1.2,
    step_noSkip (encodeAct s.tag_index) 25 consensusPages
      (encodeAct_facts s.tag_index) (by decide) (by decide) (by decide)
      (cyclePages2 s) hstage.2.1.1 hstage.2.1.2,
    step_noSkip genAct 33 encodePages genAct_facts (by decide) (by decide)
      (by decide) (cyclePages3 s) hstage.2.2.1.1 hstage.2.2.1.2,
    step_noSkip echoAct 41 genPages echoAct_facts (by decide) (by decide)
      (by decide) (cyclePages4 s) hstage.2.2.2.1.1 hstage.2.2.2.1.2⟩

theorem cyc_findMem_mono (s : EM) (hGU : GUL s.allMems) (hSB : SBL s.allMems)
    (now : Nat) (g : Genome) (m m' : Memory) (h1 : s.findMem g = some m)
    (h2 : (s.breath_cycle now).1.findMem g = some m') :
    m.strength ≤ m'.strength ∧ m.phase.idx ≤ m'.phase.idx := by
  have h1' : findPg s.pages g = some m := h1
  have h2' : findPg (cyclePages5 s) g = some m' := by
    have : (s.breath_cycle now).1.findMem g
        = findPg ((s.breath_cycle now).1.pages) g := rfl
    rw [this, breath_cycle_pages] at h2
    exact h2
  have hcnt := cycle_stage_counts s g
  have hpos0 : 0 < (pageList.flatMap s.pages).countP (fun m => m.genome = g) := by
    rw [← findPg_isSome_count]
    rw [h1']
    rfl
  have hns := cycle_stage_noSkip s hGU hSB
  obtain ⟨m1, e1⟩ := Option.isSome_iff_exists.mp
    ((findPg_isSome_count (cyclePages1 s) g).mpr (by rw [hcnt.1]; exact hpos0))
  obtain ⟨m2, e2⟩ := Option.isSome_iff_exists.mp
    ((findPg_isSome_count (cyclePages2 s) g).mpr
      (by rw [hcnt.2.1, hcnt.1]; exact hpos0))
  obtain ⟨m3, e3⟩ := Option.isSome_iff_exists.mp
    ((findPg_isSome_count (cyclePages3 s) g).mpr
      (by rw [hcnt.2.2.1, hcnt.2.1, hcnt.1]; exact hpos0))
  obtain ⟨m4, e4⟩ := Option.isSome_iff_exists.mp
    ((findPg_isSome_count (cyclePages4 s) g).mpr
      (by rw [hcnt.2.2.2.1, hcnt.2.2.1, hcnt.2.1, hcnt.1]; exact hpos0))
  have r1 := hns.1 g m m1 h1' e1
  have r2 := hns.2.1 g m1 m2 e1 e2
  have r3 := hns.2.2.1 g m2 m3 e2 e3
  have r4 := hns.2.2.2.1 g m3 m4 e3 e4
  have r5 := hns.2.2.2.2 g m4 m' e4 h2'
  have hidx : ∀ {a b : Memory},
      (b.phase = a.phase ∨ b.phase.idx = a.phase.idx + 1) →
        a.phase.idx ≤ b.phase.idx := by
    rintro a b (h | h)
    · rw [h]
    · rw [h]; omega
  constructor
  · exact r1.2.trans (r2.2.trans (r3.2.trans (r4.2.trans r5.2)))
  · exact (hidx r1.1).trans ((hidx r2.1).trans ((hidx r3.1).trans
      ((hidx r4.1).trans (hidx r5.1))))

theorem find?_mid (p : Memory → Bool) (x : Memory) (hx : p x = false) :
    ∀ (l1 l2 : List Memory),
      ((l1 ++ [x]) ++ l2).find? p = (l1 ++ l2).find? p := by
  intro l1
  induction l1 with
  | nil =>
      intro l2
      show ([x] ++ l2).find? p = l2.find? p
      simp [List.find?_cons, hx]
  | cons a t ih =>
      intro l2
      show (a :: (t ++ [x] ++ l2)).find? p = (a :: (t ++ l2)).find? p
      rw [List.find?_cons, List.find?_cons]
      cases hp : p a
      · exact ih l2
      · rfl

theorem ing_findMem_mono (s : EM) (now : Nat) (c : Content)
    (tags : List String) (g : Genome) (m m' : Memory)
    (h1 : s.findMem g = some m)
    (h2 : (s.ingest now c tags).1.findMem g = some m') :
    m'.strength = m.strength ∧ m'.phase = m.phase := by
  by_cases h : s.allMems.any (fun mm => mm.genome = computeGenome c) = true
  · have hded := ingest_dedup s now c tags h
    have hall : (s.ingest now c tags).1.allMems
        = s.allMems.map (bumpEcho (computeGenome c)) := by
      rw [hded]; exact allMems_pages_map _ _ _
    have : (s.ingest now c tags).1.findMem g
        = (s.findMem g).map (bumpEcho (computeGenome c)) := by
      unfold EM.findMem
      rw [hall, find?_map_of_pred _ _ _ (fun a => by simp [bumpEcho_genome])]
    rw [this, h1] at h2
    have : m' = bumpEcho (computeGenome c) m := by
      injection h2 with hh
      exact hh.symm
    rw [this, bumpEcho_strength, bumpEcho_phase]
    exact ⟨rfl, rfl⟩
  · have hgne : (freshMemory s now c tags).genome ≠ g := by
      intro he
      apply h
      apply List.any_eq_true.mpr
      refine ⟨m, List.mem_of_find?_eq_some h1, ?_⟩
      have hmg : m.genome = g := by
        have := List.find?_some h1
        simpa using this
      simp only [decide_eq_true_eq]
      rw [hmg, ← he]
      rfl
    have hfm : (s.ingest now c tags).1.findMem g
        = ((s.pages 1 ++ [freshMemory s now c tags])
            ++ pageListTail.flatMap s.pages).find? (fun mm => mm.genome = g) := by
      unfold EM.findMem
      rw [allMems_ingest_new s now c tags h]
    rw [hfm, find?_mid _ _ (by simp [hgne]) _ _] at h2
    have : (s.pages 1 ++ pageListTail.flatMap s.pages).find?
        (fun mm => mm.genome = g) = s.findMem g := by
      unfold EM.findMem EM.allMems
      rw [allMems_decomp]
    rw [this, h1] at h2
    injection h2 with hh
    rw [← hh]
    exact ⟨rfl, rfl⟩

/-- A bucket state holding exactly one memory, in page `a`. -/
def singlePg (a : Nat) (m : Memory) : PagesT :=
  fun q => if q = a then [m] else []

theorem stepPages_single (act : Memory → Memory × Bool) (tgt : Nat) :
    ∀ (src : List Nat) (a : Nat) (m : Memory), src.Nodup → tgt ∉ src →
      (stepPages act tgt src (singlePg a m)).1
        = if a ∈ src then
            (if (act m).2 then singlePg tgt (act m).1
             else singlePg a (act m).1)
          else singlePg a m := by
  intro src
  induction src with
  | nil => intro a m _ _; simp [stepPages]
  | cons p rest ih =>
      intro a m hnd ht
      have htp : tgt ≠ p := fun h => ht (h ▸ List.mem_cons_self p rest)
      have htr : tgt ∉ rest := fun h => ht (List.mem_cons_of_mem p h)
      have hpr : p ∉ rest := (List.nodup_cons.mp hnd).1
      simp only [stepPages]
      by_cases hpa : p = a
      · subst hpa
        have hsp : singlePg p m p = [m] := by simp [singlePg]
        have hst : singlePg p m tgt = [] := by simp [singlePg, htp]
        cases hflag : (act m).2
        · have hp1 : Function.update
              (Function.update (singlePg p m) p
                ((((singlePg p m p).map act).filter (fun x => !x.2)).map
                  Prod.fst)) tgt
              (singlePg p m tgt
                ++ (((singlePg p m p).map act).filter (fun x => x.2)).map
                  Prod.fst)
              = singlePg p (act m).1 := by
            funext q
            rw [Function.update_apply, Function.update_apply]
            by_cases hq : q = tgt
            · subst hq
              rw [if_pos rfl]
              simp [hsp, hst, hflag, singlePg, htp]
            · rw [if_neg hq]
              by_cases hq2 : q = p
              · subst hq2
                rw [if_pos rfl]
                simp [hsp, hflag, singlePg]
              · rw [if_neg hq2]
                simp [singlePg, hq2]
          rw [hp1, ih p (act m).1 (List.nodup_cons.mp hnd).2 htr]
          simp [hpr, hflag]
        · have hp1 : Function.update
              (Function.update (singlePg p m) p
                ((((singlePg p m p).map act).filter (fun x => !x.2)).map
                  Prod.fst)) tgt
              (singlePg p m tgt
                ++ (((singlePg p m p).map act).filter (fun x => x.2)).map
                  Prod.fst)
              = singlePg tgt (act m).1 := by
            funext q
            rw [Function.update_apply, Function.update_apply]
            by_cases hq : q = tgt
            · subst hq
              rw [if_pos rfl]
              simp [hsp, hst, hflag, singlePg, htp]
            · rw [if_neg hq]
              by_cases hq2 : q = p
              · subst hq2
                rw [if_pos rfl]
                simp [hsp, hflag, singlePg, htp]
                exact hq
              · rw [if_neg hq2]
                simp [singlePg, hq2, hq]
          rw [hp1, ih tgt (act m).1 (List.nodup_cons.mp hnd).2 htr]
          simp [htr, hflag]
      · have hzp : singlePg a m p = [] := by
          simp [singlePg, Ne.symm (fun h => hpa h.symm)]
        have hp1 : Function.update
            (Function.update (singlePg a m) p
              ((((singlePg a m p).map act).filter (fun x => !x.2)).map
                Prod.fst)) tgt
            (singlePg a m tgt
              ++ (((singlePg a m p).map act).filter (fun x => x.2)).map
                Prod.fst)
            = singlePg a m := by
          funext q
          rw [Function.update_apply, Function.update_apply]
          by_cases hq : q = tgt
          · subst hq
            rw [if_pos rfl]
            simp [hzp]
          · rw [if_neg hq]
            by_cases hq2 : q = p
            · subst hq2
              rw [if_pos rfl]
              simp [hzp, singlePg, hpa]
            · rw [if_neg hq2]
        rw [hp1, ih a m (List.nodup_cons.mp hnd).2 htr]
        have hmem : (a ∈ p :: rest) ↔ (a ∈ rest) := by
          constructor
          · intro h
            rcases List.mem_cons.mp h with h1 | h1
            · exact absurd h1.symm hpa
            · exact h1
          · exact fun h => List.mem_cons_of_mem p h
        by_cases ha : a ∈ rest
        · rw [if_pos ha, if_pos (hmem.mpr ha)]
        · rw [if_neg ha, if_neg (fun h => ha (hmem.mp h))]

theorem flatMap_single_nil (a : Nat) (m : Memory) :
    ∀ (L : List Nat), a ∉ L → L.flatMap (singlePg a m) = [] := by
  intro L
  induction L with
  | nil => intro _; rfl
  | cons x t ih =>
      intro h
      rw [List.flatMap_cons, ih (fun hh => h (List.mem_cons_of_mem x hh))]
      have hxa : x ≠ a := fun hh => h (hh ▸ List.mem_cons_self x t)
      have : singlePg a m x = [] := by simp [singlePg, hxa]
      rw [this]
      rfl

theorem flatMap_single (a : Nat) (m : Memory) :
    ∀ (L : List Nat), L.Nodup → a ∈ L → L.flatMap (singlePg a m) = [m] := by
  intro L
  induction L with
  | nil => intro _ h; cases h
  | cons x t ih =>
      intro hnd hmem
      rcases List.mem_cons.mp hmem with rfl | hat
      · rw [List.flatMap_cons,
          flatMap_single_nil a m t (List.nodup_cons.mp hnd).1]
        simp [singlePg]
      · have hxa : x ≠ a := fun h =>
          (List.nodup_cons.mp hnd).1 (h ▸ hat)
        rw [List.flatMap_cons, ih (List.nodup_cons.mp hnd).2 hat]
        have : singlePg a m x = [] := by simp [singlePg, hxa]
        rw [this]
        rfl

theorem findPg_single (a : Nat) (m : Memory) (g : Genome) (ha : a ∈ pageList) :
    findPg (singlePg a m) g = if m.genome = g then some m else none := by
  rw [findPg, flatMap_single a m pageList (by decide) ha]
  by_cases h : m.genome = g
  · rw [if_pos h]
    simp [List.find?_cons, h]
  · rw [if_neg h]
    simp [List.find?_cons, h]

/-! Closed-form evaluations of the per-memory actions, used to trace a
concrete memory through consecutive cycles.  (These avoid kernel reduction
of `Rat` arithmetic, which Lean's `Rat.add`/`Rat.inv` block by being
irreducible.) -/

theorem trunkAct_fires (m : Memory) (hp : m.phase = .INTAKE)
    (hs : (1:Rat)/2 ≤ m.strength) :
    trunkAct m = ({ m with phase := .TRUNK_SORT, page := 9 }, true) := by
  unfold trunkAct
  rw [if_pos ⟨hp, Or.inl hs⟩]

theorem herdAct_nopromo (m : Memory) (hp : m.phase = .TRUNK_SORT)
    (hv : m.herd_validations + 1 < 2) :
    herdAct m = ({ m with herd_validations := m.herd_validations + 1 },
      false) := by
  unfold herdAct
  rw [if_pos hp]
  dsimp only
  rw [if_neg (by omega)]

theorem herdAct_promo (m : Memory) (hp : m.phase = .TRUNK_SORT)
    (hv : 2 ≤ m.herd_validations + 1) :
    herdAct m = ({ m with
      herd_validations := m.herd_validations + 1
      phase := .HERD_CONSENSUS
      page := 17
      strength := min 1 (m.strength + 1/10) }, true) := by
  unfold herdAct
  rw [if_pos hp]
  dsimp only
  rw [if_pos hv]

theorem encodeAct_fires (ti : List (String × List Genome)) (m : Memory)
    (hp : m.phase = .HERD_CONSENSUS) :
    encodeAct ti m = ({ m with
      associations := findAssociations ti m
      phase := .MEMORY_ENCODE
      page := 25
      strength := 1 }, true) := by
  unfold encodeAct
  rw [if_pos hp]

theorem genAct_fires (m : Memory) (hp : m.phase = .MEMORY_ENCODE) :
    genAct m = ({ m with phase := .GENERATIONAL_PASS, page := 33 }, true) := by
  unfold genAct
  rw [if_pos hp]

theorem echoAct_fires (m : Memory) (hp : m.phase = .GENERATIONAL_PASS) :
    echoAct m = ({ m with
      echo_count := m.echo_count + 1
      phase := .ECHO_AMPLIFY
      page := 41 }, true) := by
  unfold echoAct
  rw [if_pos hp]

/-! The concrete cascade scenario for C1: one memory, two cycles. -/

def c1c : Content := [("event", Val.s "cascade")]

def c1g : Genome := computeGenome c1c

def c1fm : Memory := freshMemory EM.init 0 c1c []

def c1s0 : EM := (EM.init.ingest 0 c1c []).1

def c1s1 : EM := (c1s0.breath_cycle 0).1

def c1s2 : EM := (c1s1.breath_cycle 0).1

def c1m1 : Memory := { c1fm with phase := .TRUNK_SORT, page := 9 }

def c1m2 : Memory :=
  { c1m1 with herd_validations := c1m1.herd_validations + 1 }

def c1m3 : Memory :=
  { c1m2 with
    herd_validations := c1m2.herd_validations + 1
    phase := .HERD_CONSENSUS
    page := 17
    strength := min 1 (c1m2.strength + 1/10) }

def c1m4 : Memory :=
  { c1m3 with
    associations := findAssociations c1s1.tag_index c1m3
    phase := .MEMORY_ENCODE
    page := 25
    strength := 1 }

def c1m5 : Memory := { c1m4 with phase := .GENERATIONAL_PASS, page := 33 }

def c1m6 : Memory :=
  { c1m5 with
    echo_count := c1m5.echo_count + 1
    phase := .ECHO_AMPLIFY
    page := 41 }

theorem c1s0_pages : c1s0.pages = singlePg 1 c1fm := by
  have hne : ¬ EM.init.allMems.any
      (fun m => m.genome = computeGenome c1c) = true := by
    rw [show EM.init.allMems = ([] : List Memory) from rfl]
    simp
  show ((EM.init.ingest 0 c1c []).1).pages = _
  rw [ingest_new EM.init 0 c1c [] hne]
  funext q
  show Function.update (EM.init.pages) 1
      (EM.init.pages 1 ++ [freshMemory EM.init 0 c1c []]) q = _
  rw [Function.update_apply]
  by_cases hq : q = 1
  · subst hq
    simp [singlePg, EM.init, c1fm]
  · rw [if_neg hq]
    simp [singlePg, hq, EM.init]

theorem c1s1_pages : c1s1.pages = singlePg 9 c1m2 := by
  show ((c1s0.breath_cycle 0).1).pages = _
  rw [breath_cycle_pages]
  have h1 : cyclePages1 c1s0 = singlePg 9 c1m1 := by
    unfold cyclePages1
    rw [c1s0_pages,
      stepPages_single trunkAct 9 intakePages 1 c1fm (by decide) (by decide)]
    rw [trunkAct_fires c1fm rfl (by norm_num [c1fm, freshMemory])]
    rw [if_pos (by decide : (1:Nat) ∈ intakePages)]
    rfl
  have h2 : cyclePages2 c1s0 = singlePg 9 c1m2 := by
    unfold cyclePages2
    rw [h1,
      stepPages_single herdAct 17 trunkPages 9 c1m1 (by decide) (by decide)]
    rw [herdAct_nopromo c1m1 rfl (by decide)]
    rw [if_pos (by decide : (9:Nat) ∈ trunkPages)]
    rw [if_neg (by simp)]
    rfl
  have h3 : cyclePages3 c1s0 = singlePg 9 c1m2 := by
    unfold cyclePages3
    rw [h2, stepPages_single (encodeAct c1s0.tag_index) 25 consensusPages 9
      c1m2 (by decide) (by decide)]
    rw [if_neg (by decide : ¬ (9:Nat) ∈ consensusPages)]
  have h4 : cyclePages4 c1s0 = singlePg 9 c1m2 := by
    unfold cyclePages4
    rw [h3, stepPages_single genAct 33 encodePages 9 c1m2 (by decide)
      (by decide)]
    rw [if_neg (by decide : ¬ (9:Nat) ∈ encodePages)]
  show cyclePages5 c1s0 = _
  unfold cyclePages5
  rw [h4, stepPages_single echoAct 41 genPages 9 c1m2 (by decide) (by decide)]
  rw [if_neg (by decide : ¬ (9:Nat) ∈ genPages)]

theorem c1s1_phase :
    (c1s1.findMem c1g).map Memory.phase = some Phase.TRUNK_SORT := by
  show (findPg c1s1.pages c1g).map Memory.phase = _
  rw [c1s1_pages, findPg_single 9 c1m2 c1g (by decide)]
  rw [if_pos (show c1m2.genome = c1g from rfl)]
  rfl

theorem c1s2_pages : c1s2.pages = singlePg 41 c1m6 := by
  show ((c1s1.breath_cycle 0).1).pages = _
  rw [breath_cycle_pages]
  have h1 : cyclePages1 c1s1 = singlePg 9 c1m2 := by
    unfold cyclePages1
    rw [c1s1_pages,
      stepPages_single trunkAct 9 intakePages 9 c1m2 (by decide) (by decide)]
    rw [if_neg (by decide : ¬ (9:Nat) ∈ intakePages)]
  have h2 : cyclePages2 c1s1 = singlePg 17 c1m3 := by
    unfold cyclePages2
    rw [h1,
      stepPages_single herdAct 17 trunkPages 9 c1m2 (by decide) (by decide)]
    rw [herdAct_promo c1m2 rfl (by decide)]
    rw [if_pos (by decide : (9:Nat) ∈ trunkPages)]
    rfl
  have h3 : cyclePages3 c1s1 = singlePg 25 c1m4 := by
    unfold cyclePages3
    rw [h2, stepPages_single (encodeAct c1s1.tag_index) 25 consensusPages 17
      c1m3 (by decide) (by decide)]
    rw [encodeAct_fires c1s1.tag_index c1m3 rfl]
    rw [if_pos (by decide : (17:Nat) ∈ consensusPages)]
    rfl
  have h4 : cyclePages4 c1s1 = singlePg 33 c1m5 := by
    unfold cyclePages4
    rw [h3, stepPages_single genAct 33 encodePages 25 c1m4 (by decide)
      (by decide)]
    rw [genAct_fires c1m4 rfl]
    rw [if_pos (by decide : (25:Nat) ∈ encodePages)]
    rfl
  show cyclePages5 c1s1 = _
  unfold cyclePages5
  rw [h4, stepPages_single echoAct 41 genPages 33 c1m5 (by decide) (by decide)]
  rw [echoAct_fires c1m5 rfl]
  rw [if_pos (by decide : (33:Nat) ∈ genPages)]
  rfl

theorem c1s2_phase :
    (c1s2.findMem c1g).map Memory.phase = some Phase.ECHO_AMPLIFY := by
  show (findPg c1s2.pages c1g).map Memory.phase = _
  rw [c1s2_pages, findPg_single 41 c1m6 c1g (by decide)]
  rw [if_pos (show c1m6.genome = c1g from rfl)]
  rfl

theorem step_adv_le_one (act : Memory → Memory × Bool) (tgt : Nat)
    (src : List Nat) (hF : ActFacts act) (hnd : src.Nodup) (ht : tgt ∉ src)
    (hsub : ∀ p ∈ src, p ∈ pageList) (pages : PagesT) (m' : Memory)
    (h : m' ∈ pageList.flatMap (stepPages act tgt src pages).1) :
    ∃ m ∈ pageList.flatMap pages, m'.genome = m.genome ∧
      (m'.phase = m.phase ∨ m'.phase.idx = m.phase.idx + 1) := by
  obtain ⟨m, hm, hrel⟩ :=
    stepPages_back_allMems act tgt src hnd ht hsub pages m' h
  rcases hrel with heq | heq
  · exact ⟨m, hm, by rw [heq], Or.inl (by rw [heq])⟩
  · exact ⟨m, hm, by rw [heq]; exact hF.genome m,
      by rw [heq]; exact hF.phase m⟩

/-- C1 (counterexample): the claim "the phase advances by at most one
lifecycle stage per `runCycle()` call" is false.  A freshly ingested memory
sits in TRUNK_SORT after the first cycle, and the second cycle advances it
through HERD_CONSENSUS, MEMORY_ENCODE and GENERATIONAL_PASS all the way to
ECHO_AMPLIFY — four stages in a single call — because each advance step
deposits promoted memories into the first bucket that the next step of the
same call then scans. -/
theorem c1_counterexample :
    c1s2 = (c1s1.breath_cycle 0).1 ∧
    (c1s1.findMem c1g).map Memory.phase = some Phase.TRUNK_SORT ∧
    (c1s2.findMem c1g).map Memory.phase = some Phase.ECHO_AMPLIFY ∧
    Phase.TRUNK_SORT.idx + 1 < Phase.ECHO_AMPLIFY.idx :=
  ⟨rfl, c1s1_phase, c1s2_phase, by decide⟩

/-- C1 (amended): `runCycle()` invokes the five advance steps in the fixed
order TRUNK_SORT, HERD_CONSENSUS, MEMORY_ENCODE, GENERATIONAL_PASS,
ECHO_AMPLIFY, and each individual advance step moves every memory by at
most one stage (to the immediately next phase, genome preserved); a single
call may still advance one memory through several consecutive stages,
because the later steps of the call rescan the buckets the earlier steps
have just filled. -/
theorem c1_amended :
    (∀ (s : EM) (now : Nat), (s.breath_cycle now).1.pages = cyclePages5 s) ∧
    (∀ (pages : PagesT) (m' : Memory),
      m' ∈ pageList.flatMap (stepPages trunkAct 9 intakePages pages).1 →
      ∃ m ∈ pageList.flatMap pages, m'.genome = m.genome ∧
        (m'.phase = m.phase ∨ m'.phase.idx = m.phase.idx + 1)) ∧
    (∀ (pages : PagesT) (m' : Memory),
      m' ∈ pageList.flatMap (stepPages herdAct 17 trunkPages pages).1 →
      ∃ m ∈ pageList.flatMap pages, m'.genome = m.genome ∧
        (m'.phase = m.phase ∨ m'.phase.idx = m.phase.idx + 1)) ∧
    (∀ (ti : List (String × List Genome)) (pages : PagesT) (m' : Memory),
      m' ∈ pageList.flatMap
        (stepPages (encodeAct ti) 25 consensusPages pages).1 →
      ∃ m ∈ pageList.flatMap pages, m'.genome = m.genome ∧
        (m'.phase = m.phase ∨ m'.phase.idx = m.phase.idx + 1)) ∧
    (∀ (pages : PagesT) (m' : Memory),
      m' ∈ pageList.flatMap (stepPages genAct 33 encodePages pages).1 →
      ∃ m ∈ pageList.flatMap pages, m'.genome = m.genome ∧
        (m'.phase = m.phase ∨ m'.phase.idx = m.phase.idx + 1)) ∧
    (∀ (pages : PagesT) (m' : Memory),
      m' ∈ pageList.flatMap (stepPages echoAct 41 genPages pages).1 →
      ∃ m ∈ pageList.flatMap pages, m'.genome = m.genome ∧
        (m'.phase = m.phase ∨ m'.phase.idx = m.phase.idx + 1)) :=
  ⟨breath_cycle_pages,
   fun pages => step_adv_le_one trunkAct 9 intakePages trunkAct_facts
     (by decide) (by decide) (by decide) pages,
   fun pages => step_adv_le_one herdAct 17 trunkPages herdAct_facts
     (by decide) (by decide) (by decide) pages,
   fun ti pages => step_adv_le_one (encodeAct ti) 25 consensusPages
     (encodeAct_facts ti) (by decide) (by decide) (by decide) pages,
   fun pages => step_adv_le_one genAct 33 encodePages genAct_facts
     (by decide) (by decide) (by decide) pages,
   fun pages => step_adv_le_one echoAct 41 genPages echoAct_facts
     (by decide) (by decide) (by decide) pages⟩

/-- Witness scenario for the amended C1: a GENERATIONAL_PASS memory which
ECHO_AMPLIFY promotes by exactly one stage. -/
def c1wm : Memory :=
  { content := [], timestamp := 0, genome := [], strength := 1,
    phase := .GENERATIONAL_PASS, page := 33, generation := 0,
    herd_validations := 0, echo_count := 0, tags := [], associations := [] }

/-- The promoted form of `c1wm`. -/
def c1wmAfter : Memory :=
  { c1wm with echo_count := 1, phase := .ECHO_AMPLIFY, page := 41 }

/-- Witness for the amended C1 at a concrete bucket state. -/
theorem c1_amended_witness :
    c1wmAfter ∈ pageList.flatMap
      (stepPages echoAct 41 genPages (singlePg 33 c1wm)).1 ∧
    ∃ m ∈ pageList.flatMap (singlePg 33 c1wm), c1wmAfter.genome = m.genome ∧
      (c1wmAfter.phase = m.phase ∨ c1wmAfter.phase.idx = m.phase.idx + 1) :=
  ⟨by decide, c1_amended.2.2.2.2.2 (singlePg 33 c1wm) c1wmAfter (by decide)⟩

/-- C5: invariants over every reachable engine state.  Each memory sits in
exactly one page bucket (genomes are globally unique across buckets), every
strength lies in `[0, 1]`, `runCycle` is exactly the five bucket passes in
fixed order, each pass moves a memory forward by at most one phase (no
skipping, no backward transition) without lowering strength, and across any
single `ingest` or `runCycle` call strength never decreases and the phase
index never moves backward. -/
theorem c5_lifecycle_invariants (s : EM) (hs : EM.Reachable s) :
    GUL s.allMems ∧ SBL s.allMems ∧
    (∀ now : Nat, (s.breath_cycle now).1.pages = cyclePages5 s) ∧
    (stepNoSkip s.pages (cyclePages1 s) ∧
     stepNoSkip (cyclePages1 s) (cyclePages2 s) ∧
     stepNoSkip (cyclePages2 s) (cyclePages3 s) ∧
     stepNoSkip (cyclePages3 s) (cyclePages4 s) ∧
     stepNoSkip (cyclePages4 s) (cyclePages5 s)) ∧
    (∀ (op : EOp) (g : Genome) (m m' : Memory),
      s.findMem g = some m → (op.apply s).findMem g = some m' →
        m.strength ≤ m'.strength ∧ m.phase.idx ≤ m'.phase.idx) := by
  have hinv := reachable_Inv s hs
  refine ⟨hinv.1, hinv.2, breath_cycle_pages s,
    cycle_stage_noSkip s hinv.1 hinv.2, ?_⟩
  intro op g m m' h1 h2
  cases op with
  | ing now c tags =>
      have heq := ing_findMem_mono s now c tags g m m' h1 h2
      exact ⟨le_of_eq heq.1.symm, le_of_eq (by rw [heq.2])⟩
  | cyc now => exact cyc_findMem_mono s hinv.1 hinv.2 now g m m' h1 h2

/-- A concrete reachable state for the C5 witness. -/
def c5ws : EM := (EOp.ing 0 [("k", Val.s "v")] ["t"]).apply EM.init

/-- Witness for C5: the invariants hold at a concrete reachable state, with
reachability discharged by the `Reachable` constructors. -/
theorem c5_lifecycle_invariants_witness :
    EM.Reachable c5ws ∧ GUL c5ws.allMems ∧ SBL c5ws.allMems :=
  ⟨EM.Reachable.step _ EM.Reachable.init,
   (c5_lifecycle_invariants c5ws
     (EM.Reachable.step _ EM.Reachable.init)).1,
   (c5_lifecycle_invariants c5ws
     (EM.Reachable.step _ EM.Reachable.init)).2.1⟩

/-! ## C6: store failure semantics -/

/-- The record stored for content `c6bad`, whose `"value"` field is a
string: multiplying it by the float mandate raises `TypeError`. -/
def c6bad : Content := [("value", Val.s "abc")]

/-- C6 (counterexample): `store` fails on perfectly serializable content —
a record whose `"value"` field is non-numeric — and the failure is not
all-or-nothing: the record list has already been extended when the
`TypeError` is raised. -/
theorem c6_counterexample :
    ((Store40D.Store.init 0).store c6bad 0 0).2 = none ∧
    ((Store40D.Store.init 0).store c6bad 0 0).1.data.length = 1 := by
  exact ⟨rfl, rfl⟩

/-- C6 (amended): `store` fails exactly when the record declares a
non-numeric `"value"` field (content itself is always canonically
serializable in the modelled value universe); on such a failure the record
has already been appended to the record list and its non-null dimensions
indexed, while the statistics counters and the redistribution pool are left
untouched. -/
theorem c6_amended (s : Store40D.Store) (c : Content) (ts bc : Nat) :
    ((s.store c ts bc).2 = none ↔
      ∃ v, contentGet c "value" = some v ∧ Store40D.valNum v = none) ∧
    ((s.store c ts bc).2 = none →
      (s.store c ts bc).1.data
          = s.data ++ [{ genome := computeGenome c
                         data := c
                         coordinates := Store40D.extractCoordinates c
                         timestamp := ts
                         breath_cycle := bc }] ∧
      (s.store c ts bc).1.index
          = Store40D.indexCoords (Store40D.extractCoordinates c) 0
              s.data.length s.index ∧
      (s.store c ts bc).1.total_stored = s.total_stored ∧
      (s.store c ts bc).1.care_pool = s.care_pool ∧
      (s.store c ts bc).1.care_redistributed = s.care_redistributed ∧
      (s.store c ts bc).1.total_queries = s.total_queries) := by
  unfold Store40D.Store.store
  dsimp only
  split
  case _ v heq =>
    split
    case _ x hval =>
      constructor
      · constructor
        · intro h; cases h
        · rintro ⟨v', hv', hn⟩
          rw [heq] at hv'
          injection hv' with hv''
          rw [← hv''] at hn
          rw [hval] at hn
          cases hn
      · intro h; cases h
    case _ hval =>
      refine ⟨⟨fun _ => ⟨v, heq, hval⟩, fun _ => rfl⟩, ?_⟩
      intro _
      exact ⟨rfl, rfl, rfl, rfl, rfl, rfl⟩
  case _ heq =>
    constructor
    · constructor
      · intro h; cases h
      · rintro ⟨v', hv', _⟩
        rw [heq] at hv'
        cases hv'
    · intro h; cases h

/-- Witness for the amended C6 at the concrete failing record. -/
theorem c6_amended_witness :
    ((Store40D.Store.init 0).store c6bad 0 0).2 = none ∧
    (((Store40D.Store.init 0).store c6bad 0 0).1.data
        = (Store40D.Store.init 0).data ++ [{ genome := computeGenome c6bad
                                             data := c6bad
                                             coordinates := Store40D.extractCoordinates c6bad
                                             timestamp := 0
                                             breath_cycle := 0 }] ∧
      ((Store40D.Store.init 0).store c6bad 0 0).1.index
          = Store40D.indexCoords (Store40D.extractCoordinates c6bad) 0
              (Store40D.Store.init 0).data.length (Store40D.Store.init 0).index ∧
      ((Store40D.Store.init 0).store c6bad 0 0).1.total_stored
          = (Store40D.Store.init 0).total_stored ∧
      ((Store40D.Store.init 0).store c6bad 0 0).1.care_pool
          = (Store40D.Store.init 0).care_pool ∧
      ((Store40D.Store.init 0).store c6bad 0 0).1.care_redistributed
          = (Store40D.Store.init 0).care_redistributed ∧
      ((Store40D.Store.init 0).store c6bad 0 0).1.total_queries
          = (Store40D.Store.init 0).total_queries) :=
  ⟨rfl, (c6_amended (Store40D.Store.init 0) c6bad 0 0).2 rfl⟩

/-! ## Posting-list lemmas -/

namespace Store40D

theorem idxGet_bump_same (k : IdxKey) (n : Nat) :
    ∀ idx : IdxT, idxGet (idxBump k n idx) k = idxGet idx k ++ [n] := by
  intro idx
  induction idx with
  | nil => simp [idxBump, idxGet, List.find?_cons]
  | cons kv rest ih =>
      obtain ⟨k', l⟩ := kv
      by_cases h : k' = k
      · subst h
        simp [idxBump, idxGet, List.find?_cons]
      · simp only [idxBump, if_neg h]
        simp only [idxGet, List.find?_cons]
        have : (decide (k' = k)) = false := by simp [h]
        rw [this]
        exact ih

theorem idxGet_bump_other (k k2 : IdxKey) (n : Nat) (hne : k2 ≠ k) :
    ∀ idx : IdxT, idxGet (idxBump k2 n idx) k = idxGet idx k := by
  intro idx
  induction idx with
  | nil =>
      simp [idxBump, idxGet, List.find?_cons, hne]
  | cons kv rest ih =>
      obtain ⟨k', l⟩ := kv
      by_cases h : k' = k2
      · subst h
        simp only [idxBump, if_pos rfl]
        simp [idxGet, List.find?_cons, hne]
      · simp only [idxBump, if_neg h]
        simp only [idxGet, List.find?_cons]
        cases hd : decide (k' = k)
        · dsimp only
          simpa [idxGet] using ih
        · rfl

theorem indexCoords_preserve (n n' : Nat) (key : IdxKey) :
    ∀ (coords : List (Option Val)) (i : Nat) (idx : IdxT),
      n' ∈ idxGet idx key → n' ∈ idxGet (indexCoords coords i n idx) key := by
  intro coords
  induction coords with
  | nil => intro i idx h; exact h
  | cons c0 rest ih =>
      intro i idx h
      cases c0 with
      | none => exact ih (i + 1) idx h
      | some v =>
          apply ih (i + 1)
          by_cases hk : (i, pyStr v) = key
          · rw [← hk] at h ⊢
            rw [idxGet_bump_same]
            exact List.mem_append_left _ h
          · rw [idxGet_bump_other key (i, pyStr v) n hk]
            exact h

theorem indexCoords_mem (n : Nat) (v : Val) :
    ∀ (coords : List (Option Val)) (j : Nat) (i : Nat) (idx : IdxT),
      coords.get? j = some (some v) →
      n ∈ idxGet (indexCoords coords i n idx) (i + j, pyStr v) := by
  intro coords
  induction coords with
  | nil => intro j i idx h; cases h
  | cons c0 rest ih =>
      intro j i idx h
      cases j with
      | zero =>
          rw [List.get?_cons_zero] at h
          injection h with h0
          subst h0
          show n ∈ idxGet (indexCoords rest (i + 1) n
            (idxBump (i, pyStr v) n idx)) (i + 0, pyStr v)
          have hbase : n ∈ idxGet (idxBump (i, pyStr v) n idx) (i, pyStr v) := by
            rw [idxGet_bump_same]
            exact List.mem_append_right _ (List.mem_singleton.mpr rfl)
          have := indexCoords_preserve n n (i, pyStr v) rest (i + 1)
            (idxBump (i, pyStr v) n idx) hbase
          simpa using this
      | succ j' =>
          rw [List.get?_cons_succ] at h
          cases c0 with
          | none =>
              have := ih j' (i + 1) idx h
              rw [show i + 1 + j' = i + (j' + 1) from by omega] at this
              exact this
          | some w =>
              have := ih j' (i + 1) (idxBump (i, pyStr w) n idx) h
              rw [show i + 1 + j' = i + (j' + 1) from by omega] at this
              exact this

theorem indexCoords_back (n n' : Nat) (key : IdxKey) :
    ∀ (coords : List (Option Val)) (i : Nat) (idx : IdxT),
      n' ∈ idxGet (indexCoords coords i n idx) key →
      n' ∈ idxGet idx key ∨ n' = n := by
  intro coords
  induction coords with
  | nil => intro i idx h; exact Or.inl h
  | cons c0 rest ih =>
      intro i idx h
      cases c0 with
      | none => exact ih (i + 1) idx h
      | some v =>
          rcases ih (i + 1) (idxBump (i, pyStr v) n idx) h with h1 | h1
          · by_cases hk : (i, pyStr v) = key
            · rw [← hk, idxGet_bump_same] at h1
              rcases List.mem_append.mp h1 with h2 | h2
              · exact Or.inl (by rw [← hk]; exact h2)
              · exact Or.inr (List.mem_singleton.mp h2)
            · rw [idxGet_bump_other key (i, pyStr v) n hk] at h1
              exact Or.inl h1
          · exact Or.inr h1

end Store40D

namespace Store40D

theorem getPoints_ok (data : List Point) :
    ∀ inds : List Nat, (∀ i ∈ inds, i < data.length) →
      ∃ l, getPoints data inds = .ok l ∧
        (∀ (p : Point) (i : Nat), i ∈ inds → data.get? i = some p → p ∈ l) ∧
        (∀ p ∈ l, ∃ i ∈ inds, data.get? i = some p) := by
  intro inds
  induction inds with
  | nil =>
      intro _
      exact ⟨[], rfl, fun p i h => absurd h (List.not_mem_nil i),
        fun p h => absurd h (List.not_mem_nil p)⟩
  | cons i rest ih =>
      intro hb
      have hi : i < data.length := hb i (List.mem_cons_self i rest)
      obtain ⟨p0, hp0⟩ : ∃ p0, data.get? i = some p0 := by
        rw [List.get?_eq_getElem?]
        exact ⟨data[i], List.getElem?_eq_getElem hi⟩
      obtain ⟨l, hl, hfwd, hback⟩ :=
        ih (fun j hj => hb j (List.mem_cons_of_mem i hj))
      refine ⟨p0 :: l, ?_, ?_, ?_⟩
      · show getPoints data (i :: rest) = _
        unfold getPoints
        rw [hp0, hl]
        rfl
      · intro p j hj hget
        rcases List.mem_cons.mp hj with rfl | hj2
        · rw [hget] at hp0
          injection hp0 with h0
          rw [h0]
          exact List.mem_cons_self p0 l
        · exact List.mem_cons_of_mem p0 (hfwd p j hj2 hget)
      · intro p hp
        rcases List.mem_cons.mp hp with rfl | hp2
        · exact ⟨i, List.mem_cons_self i rest, hp0⟩
        · obtain ⟨j, hj, hg⟩ := hback p hp2
          exact ⟨j, List.mem_cons_of_mem i hj, hg⟩

theorem store_data_index (s : Store) (c : Content) (ts bc : Nat) :
    (s.store c ts bc).1.data
        = s.data ++ [{ genome := computeGenome c
                       data := c
                       coordinates := extractCoordinates c
                       timestamp := ts
                       breath_cycle := bc }] ∧
    (s.store c ts bc).1.index
        = indexCoords (extractCoordinates c) 0 s.data.length s.index := by
  unfold Store.store
  dsimp only
  split
  · split
    · exact ⟨rfl, rfl⟩
    · exact ⟨rfl, rfl⟩
  · exact ⟨rfl, rfl⟩

theorem coordOf_eq_of_ne_null (r : Content) (k : String) (v : Val)
    (hv : contentGet r k = some v) (hnn : v ≠ .null) :
    coordOf r k = some v := by
  unfold coordOf
  rw [hv]
  cases v with
  | null => exact absurd rfl hnn
  | s w => rfl
  | i w => rfl
  | q w => rfl
  | b w => rfl

theorem names_get?_indexOf (k : String) (hk : k ∈ DIMENSION_NAMES) :
    DIMENSION_NAMES.get? (DIMENSION_NAMES.indexOf k) = some k := by
  have hlt : DIMENSION_NAMES.indexOf k < DIMENSION_NAMES.length :=
    List.indexOf_lt_length.mpr hk
  rw [List.get?_eq_getElem?, List.getElem?_eq_getElem hlt]
  congr 1
  exact List.getElem_indexOf hlt

theorem extractCoordinates_get? (r : Content) (k : String)
    (hk : k ∈ DIMENSION_NAMES) :
    (extractCoordinates r).get? (DIMENSION_NAMES.indexOf k)
      = some (coordOf r k) := by
  unfold extractCoordinates
  rw [List.get?_map, names_get?_indexOf k hk]
  rfl

end Store40D

namespace Store40D

theorem applyFilters_single_eq (s : Store) (k : String) (v : Val)
    (hk : k ∈ DIMENSION_NAMES) :
    applyFilters s [] [(k, v)] none
      = .ok (some (idxGet s.index (DIMENSION_NAMES.indexOf k, pyStr v))) := by
  unfold applyFilters
  rw [if_pos hk]
  rfl

/-- The point appended by `store r`. -/
def storedPoint (r : Content) (ts bc : Nat) : Point :=
  { genome := computeGenome r
    data := r
    coordinates := extractCoordinates r
    timestamp := ts
    breath_cycle := bc }

end Store40D

/-- C2 (amended): for every well-formed store, every record `r` and every
schema dimension `k` present in `r` with a non-null value, `store(r)`
followed by `query({k: r[k]})` returns a result set containing `r`.  (The
present-but-null case is excluded: it is the counterexample.) -/
theorem c2_amended (s : Store40D.Store) (hWF : s.WF) (r : Content)
    (k : String) (v : Val) (hk : k ∈ Store40D.DIMENSION_NAMES)
    (hv : contentGet r k = some v) (hnn : v ≠ .null) (ts bc : Nat) :
    ∃ l, (((s.store r ts bc).1).query [(k, v)] []).2 = Except.ok l ∧
      ∃ p ∈ l, p.data = r := by
  obtain ⟨hdata, hindex⟩ := Store40D.store_data_index s r ts bc
  have hcoord : (Store40D.extractCoordinates r).get?
      (Store40D.DIMENSION_NAMES.indexOf k) = some (some v) := by
    rw [Store40D.extractCoordinates_get? r k hk,
      Store40D.coordOf_eq_of_ne_null r k v hv hnn]
  have hmem : s.data.length ∈ Store40D.idxGet (s.store r ts bc).1.index
      (Store40D.DIMENSION_NAMES.indexOf k, Store40D.pyStr v) := by
    rw [hindex]
    have := Store40D.indexCoords_mem s.data.length v
      (Store40D.extractCoordinates r) (Store40D.DIMENSION_NAMES.indexOf k) 0
      s.index hcoord
    simpa using this
  have hlen : (s.store r ts bc).1.data.length = s.data.length + 1 := by
    rw [hdata]
    simp
  have hbound : ∀ i ∈ Store40D.idxGet (s.store r ts bc).1.index
      (Store40D.DIMENSION_NAMES.indexOf k, Store40D.pyStr v),
      i < (s.store r ts bc).1.data.length := by
    intro i hi
    rw [hindex] at hi
    rcases Store40D.indexCoords_back s.data.length i
        (Store40D.DIMENSION_NAMES.indexOf k, Store40D.pyStr v)
        (Store40D.extractCoordinates r) 0 s.index hi with h1 | h1
    · have := hWF _ i h1
      omega
    · omega
  obtain ⟨l, hgp, hfwd, _⟩ := Store40D.getPoints_ok (s.store r ts bc).1.data
    (Store40D.idxGet (s.store r ts bc).1.index
      (Store40D.DIMENSION_NAMES.indexOf k, Store40D.pyStr v)) hbound
  have hgetn : (s.store r ts bc).1.data.get? s.data.length
      = some (Store40D.storedPoint r ts bc) := by
    rw [hdata]
    exact List.get?_concat_length s.data _
  refine ⟨l, ?_, Store40D.storedPoint r ts bc,
    hfwd (Store40D.storedPoint r ts bc) s.data.length hmem hgetn, rfl⟩
  show ((s.store r ts bc).1.query [(k, v)] []).2 = .ok l
  unfold Store40D.Store.query
  rw [Store40D.applyFilters_single_eq (s.store r ts bc).1 k v hk]
  dsimp only [Option.getD]
  rw [hgp]

/-- C2 (counterexample): a record with a present-but-`None` dimension value
is reachable by neither indexing nor the `None`-valued equality query:
`store({"sector": None})` then `query({"sector": None})` returns the empty
result set, so it does not contain the record. -/
theorem c2_counterexample :
    contentGet [("sector", Val.null)] "sector" = some Val.null ∧
    ((((Store40D.Store.init 0).store [("sector", Val.null)] 0 0).1).query
        [("sector", Val.null)] []).2 = Except.ok ([] : List Store40D.Point) :=
  ⟨rfl, rfl⟩

/-- Witness for the amended C2 at a concrete record and dimension. -/
theorem c2_amended_witness :
    ("sector" ∈ Store40D.DIMENSION_NAMES) ∧
    contentGet [("sector", Val.s "q")] "sector" = some (Val.s "q") ∧
    ∃ l, ((((Store40D.Store.init 0).store [("sector", Val.s "q")] 0 0).1).query
        [("sector", Val.s "q")] []).2 = Except.ok l ∧
      ∃ p ∈ l, p.data = [("sector", Val.s "q")] :=
  ⟨by decide, rfl,
   c2_amended (Store40D.Store.init 0)
     (by intro key n h
         simp [Store40D.idxGet, Store40D.Store.init] at h)
     [("sector", Val.s "q")] "sector" (Val.s "q") (by decide) rfl
     (by decide) 0 0⟩

namespace Store40D

/-- The range scan succeeds when every point's coordinate in the scanned
dimension exists and, when non-null, is comparable under `keep`; the
returned positions are exactly the offsets of the points whose coordinate
passes `keep`. -/
theorem rangeScan_ok (keep : Val → Option Bool) (dimIdx : Nat) :
    ∀ (l : List Point) (i : Nat),
      (∀ p ∈ l, ∃ c, p.coordinates.get? dimIdx = some c ∧
          ∀ v, c = some v → (keep v).isSome) →
      ∃ inds, rangeScan keep dimIdx l i = .ok inds ∧
        ∀ n, n ∈ inds ↔ ∃ j p v, n = i + j ∧ l.get? j = some p ∧
            p.coordinates.get? dimIdx = some (some v) ∧ keep v = some true := by
  intro l
  induction l with
  | nil =>
      intro i _
      refine ⟨[], rfl, ?_⟩
      intro n
      constructor
      · intro h
        exact absurd h (List.not_mem_nil n)
      · rintro ⟨j, p, v, _, hget, _, _⟩
        rw [List.get?_nil] at hget
        exact Option.noConfusion hget
  | cons p rest ih =>
      intro i hcomp
      obtain ⟨c, hc, hcv⟩ := hcomp p (List.mem_cons_self p rest)
      obtain ⟨inds, hscan, hiff⟩ :=
        ih (i + 1) (fun q hq => hcomp q (List.mem_cons_of_mem p hq))
      cases c with
      | none =>
          refine ⟨inds, ?_, ?_⟩
          · show rangeScan keep dimIdx (p :: rest) i = .ok inds
            unfold rangeScan
            rw [hc]
            exact hscan
          · intro n
            rw [hiff n]
            constructor
            · rintro ⟨j, q, v, hn, hget, hcoord, hkeep⟩
              exact ⟨j + 1, q, v, by omega, hget, hcoord, hkeep⟩
            · rintro ⟨j, q, v, hn, hget, hcoord, hkeep⟩
              cases j with
              | zero =>
                  rw [List.get?_cons_zero] at hget
                  injection hget with hq
                  rw [← hq] at hcoord
                  rw [hc] at hcoord
                  injection hcoord with hbad
                  exact Option.noConfusion hbad
              | succ j' =>
                  rw [List.get?_cons_succ] at hget
                  exact ⟨j', q, v, by omega, hget, hcoord, hkeep⟩
      | some v0 =>
          have hks : (keep v0).isSome := hcv v0 rfl
          cases hkv : keep v0 with
          | none => rw [hkv] at hks; simp at hks
          | some b =>
              cases b with
              | true =>
                  refine ⟨i :: inds, ?_, ?_⟩
                  · show rangeScan keep dimIdx (p :: rest) i = .ok (i :: inds)
                    simp only [rangeScan, hc, hkv, hscan]
                    rfl
                  · intro n
                    constructor
                    · intro hmem
                      rcases List.mem_cons.mp hmem with rfl | h2
                      · exact ⟨0, p, v0, by omega, List.get?_cons_zero, hc, hkv⟩
                      · obtain ⟨j, q, v, hn, hget, hcoord, hkeep⟩ :=
                          (hiff n).mp h2
                        exact ⟨j + 1, q, v, by omega, hget, hcoord, hkeep⟩
                    · rintro ⟨j, q, v, hn, hget, hcoord, hkeep⟩
                      cases j with
                      | zero =>
                          have : n = i := by omega
                          rw [this]
                          exact List.mem_cons_self i inds
                      | succ j' =>
                          rw [List.get?_cons_succ] at hget
                          refine List.mem_cons_of_mem i ((hiff n).mpr ?_)
                          exact ⟨j', q, v, by omega, hget, hcoord, hkeep⟩
              | false =>
                  refine ⟨inds, ?_, ?_⟩
                  · show rangeScan keep dimIdx (p :: rest) i = .ok inds
                    simp only [rangeScan, hc, hkv]
                    exact hscan
                  · intro n
                    rw [hiff n]
                    constructor
                    · rintro ⟨j, q, v, hn, hget, hcoord, hkeep⟩
                      exact ⟨j + 1, q, v, by omega, hget, hcoord, hkeep⟩
                    · rintro ⟨j, q, v, hn, hget, hcoord, hkeep⟩
                      cases j with
                      | zero =>
                          rw [List.get?_cons_zero] at hget
                          injection hget with hq
                          rw [← hq] at hcoord
                          rw [hc] at hcoord
                          injection hcoord with hv0
                          injection hv0 with hv1
                          rw [← hv1] at hkeep
                          rw [hkv] at hkeep
                          injection hkeep with hbad
                          exact Bool.noConfusion hbad
                      | succ j' =>
                          rw [List.get?_cons_succ] at hget
                          exact ⟨j', q, v, by omega, hget, hcoord, hkeep⟩

/-- A single `>=` filter on a known dimension reduces `applyFilters` to the
range scan. -/
theorem applyFilters_ge_eq (s : Store) (k : String) (t : Val)
    (hk : k ∈ DIMENSION_NAMES) :
    applyFilters s [(k, QOp.ge)] [(k, t)] none
      = (rangeScan (fun c => valGe c t) (DIMENSION_NAMES.indexOf k)
          s.data 0).map (fun inds => some inds) := by
  have hop : opOf [(k, QOp.ge)] k = QOp.ge := by
    simp [opOf]
  unfold applyFilters
  rw [if_pos hk, hop]
  show (match filterIndices s (DIMENSION_NAMES.indexOf k) t QOp.ge with
        | .error e => Except.error e
        | .ok inds => applyFilters s [(k, QOp.ge)] [] (some inds)) = _
  unfold filterIndices
  cases rangeScan (fun c => valGe c t) (DIMENSION_NAMES.indexOf k) s.data 0 with
  | error e => rfl
  | ok inds => rfl

end Store40D

/-- C7 (amended): when every stored record either lacks a value in the
queried dimension or carries one comparable with the threshold `t`, a `>=`
query on that dimension succeeds and returns exactly the stored records
whose value in that dimension is ≥ t, boundary equality included; records
lacking a value are not returned.  (Comparability is necessary: one stored
record with an incomparable value aborts the whole query — the
counterexample.) -/
theorem c7_amended (s : Store40D.Store) (k : String) (t : Val)
    (hk : k ∈ Store40D.DIMENSION_NAMES)
    (hcomp : ∀ p ∈ s.data, ∃ c,
        p.coordinates.get? (Store40D.DIMENSION_NAMES.indexOf k) = some c ∧
        ∀ v, c = some v → (Store40D.valGe v t).isSome) :
    ∃ l, (s.query [(k, t)] [(k, Store40D.QOp.ge)]).2 = Except.ok l ∧
      ∀ p : Store40D.Point, p ∈ l ↔ ∃ i v, s.data.get? i = some p ∧
        p.coordinates.get? (Store40D.DIMENSION_NAMES.indexOf k)
          = some (some v) ∧
        Store40D.valGe v t = some true := by
  obtain ⟨inds, hscan, hiff⟩ :=
    Store40D.rangeScan_ok (fun c => Store40D.valGe c t)
      (Store40D.DIMENSION_NAMES.indexOf k) s.data 0 hcomp
  have hbound : ∀ n ∈ inds, n < s.data.length := by
    intro n hn
    obtain ⟨j, p, v, hnj, hget, _, _⟩ := (hiff n).mp hn
    have hj : j < s.data.length := List.get?_eq_some.mp hget |>.1
    omega
  obtain ⟨l, hgp, hfwd, hback⟩ := Store40D.getPoints_ok s.data inds hbound
  refine ⟨l, ?_, ?_⟩
  · show (s.query [(k, t)] [(k, Store40D.QOp.ge)]).2 = .ok l
    unfold Store40D.Store.query
    rw [Store40D.applyFilters_ge_eq s k t hk, hscan]
    dsimp only [Except.map, Option.getD]
    rw [hgp]
  · intro p
    constructor
    · intro hp
      obtain ⟨n, hn, hget⟩ := hback p hp
      obtain ⟨j, q, v, hnj, hgetj, hcoord, hkeep⟩ := (hiff n).mp hn
      have hj : j = n := by omega
      rw [hj] at hgetj
      rw [hget] at hgetj
      injection hgetj with hq
      rw [hq]
      exact ⟨n, v, by rw [← hq]; exact hget, hcoord, hkeep⟩
    · rintro ⟨i, v, hget, hcoord, hge⟩
      have hmem : i ∈ inds :=
        (hiff i).mpr ⟨i, p, v, by omega, hget, hcoord, hge⟩
      exact hfwd p i hmem hget

/-- C7 (counterexample): a `>=` query does not return "exactly the subset
with value ≥ t": one stored record with a string value in the queried
dimension makes the linear scan raise `TypeError`, so a query that should
return the record with value 5 ≥ 3 returns an error instead. -/
theorem c7_counterexample :
    Store40D.valGe (Val.i 5) (Val.i 3) = some true ∧
    ((((((Store40D.Store.init 0).store [("quality_score", Val.i 5)] 0 0).1).store
        [("quality_score", Val.s "x")] 0 0).1).query
        [("quality_score", Val.i 3)] [("quality_score", Store40D.QOp.ge)]).2
      = Except.error () :=
  ⟨rfl, rfl⟩

/-- Witness for the amended C7 at a concrete one-record store. -/
theorem c7_amended_witness :
    ("quality_score" ∈ Store40D.DIMENSION_NAMES) ∧
    ∃ l, ((((Store40D.Store.init 0).store
          [("quality_score", Val.i 5)] 0 0).1).query
        [("quality_score", Val.i 3)]
        [("quality_score", Store40D.QOp.ge)]).2 = Except.ok l ∧
      ∀ p : Store40D.Point, p ∈ l ↔ ∃ i v,
        (((Store40D.Store.init 0).store
            [("quality_score", Val.i 5)] 0 0).1).data.get? i = some p ∧
        p.coordinates.get?
            (Store40D.DIMENSION_NAMES.indexOf "quality_score")
          = some (some v) ∧
        Store40D.valGe v (Val.i 3) = some true :=
  ⟨by decide,
   c7_amended _ "quality_score" (Val.i 3) (by decide)
     (by
       intro p hp
       have hd : (((Store40D.Store.init 0).store
             [("quality_score", Val.i 5)] 0 0).1).data
           = [Store40D.storedPoint [("quality_score", Val.i 5)] 0 0] := rfl
       rw [hd] at hp
       rw [List.mem_singleton] at hp
       subst hp
       refine ⟨some (Val.i 5), rfl, ?_⟩
       intro v hv
       injection hv with hv1
       rw [← hv1]
       rfl)⟩
